import Mathlib

/-!
# wasapi_sine: the block adapter of `main.c`

A shallow embedding of `src/main.c`.  The program opens a WASAPI render client
and feeds it a sine wave; the generator works in blocks of `g_Audio.BlockSize`
frames while the device asks for a varying number of frames, so
`Audio_Process` keeps the generated-but-undelivered frames at the start of
`g_Audio.ProcessBuffer` for the next cycle.

Conventions of the embedding.

* `UINT32`, `SIZE_T` and `UINT64` values are natural numbers.  The `UINT32`
  subtractions of `Audio_Process` subtract a minimum of the minuend, so they
  never wrap; the byte counts are at most `4 * 2 * 2^32 + 4096`, far below
  `2^64` (a 64 bit `SIZE_T`), see `requiredCap_lt_two_pow_64`.  The loop
  counters `int i` and `int ch` stay below `2^31` for frame and channel counts
  below `2^31`.
* `float` is an uninterpreted type `α` and the `static float phase` of
  `process_noninterleaved` an uninterpreted type `φ`; the two float
  computations of the generator are the fields of `Oscillator`.
* `g_Audio.ProcessBuffer` is one allocation, read and written as `float`
  cells: cell `k` is the four bytes at byte offset `4 * k`.  The overflow
  region and the generator scratch are parts of this one memory, as in the
  source, so a write to one can be seen through the other.  Reads and writes
  are not checked against `NULL` or `ProcessBufferCap`, as in C.
* The device region that `GetBuffer` gives is only written, cell after cell
  from its start; it is the list of the samples stored so far.
* COM handles are `Bool`s (`true`: not `NULL`).  The results of the calls into
  Windows are arguments of the functions that make them.
* `my_assert` failing is the error `Fault.assertion line` with the source line
  of the assertion.
-/

namespace WasapiSine

/-- An abnormal end: `my_assert` (`__debugbreak`) at a source line, or a loop
that does not end. -/
inductive Fault where
  | assertion (line : Nat)
  | diverges
  deriving DecidableEq, Repr

/-- Line 20: `my_assert(cond)`; the program goes on with `k` when the condition
holds and stops at the assertion of the given source line when it does not. -/
def my_assert {β : Type} (cond : Prop) [Decidable cond] (line : Nat) (k : Except Fault β) :
    Except Fault β :=
  if cond then k else .error (.assertion line)

/-- The two float computations of `process_noninterleaved`:
`sample` is `sin(2 * pi * phase)` and `advance sampleRate` is
`phase += freq / SampleRate; phase -= (int)phase`. -/
structure Oscillator (φ α : Type) where
  sample : φ → α
  advance : Nat → φ → φ

/-- The global `g_Audio` (lines 32-52) with the `static float phase` of
`process_noninterleaved`, and four observation fields that the code does not
have: the number of generator calls, the samples handed to the device by
`ReleaseBuffer` (in order), the frame counts of the `ReleaseBuffer` calls and
the number of `VirtualAlloc` calls. -/
structure Audio (φ α : Type) where
  pIMMDevice : Bool
  pIAudioClient : Bool
  pIAudioRenderClient : Bool
  hAudioEvent : Bool
  hAudioProcessThread : Bool
  FlagExitAudioThread : Nat
  ProcessBufferCap : Nat
  ProcessBuffer : Bool
  ProcessBufferMem : Nat → α
  ProcessBufferMaxFrames : Nat
  ProcessBufferNumOverprocessedFrames : Nat
  NumChannels : Nat
  SampleRate : Nat
  BlockSize : Nat
  phase : φ
  generatorCalls : Nat
  delivered : List α
  releasedFrames : List Nat
  allocations : Nat

/-- Lines 58-62: `RoundUp`. -/
def RoundUp (v align : Nat) : Nat :=
  let inc := (align - (v % align)) % align
  v + inc

/-- The constant `sizeof(float)`. -/
def sizeofFloat : Nat := 4

/-- A store of one `float` through a pointer: cell `k` of `mem` becomes `v`. -/
def poke {α : Type} (mem : Nat → α) (k : Nat) (v : α) : Nat → α :=
  fun j => if j = k then v else mem j

/-- The loop `for (; i < i + n; i++) s = body(i, s)`: `n` iterations starting
at index `i`. -/
def forLoop {S : Type} (body : Nat → S → S) : Nat → Nat → S → S
  | 0, _, s => s
  | n + 1, i, s => forLoop body n (i + 1) (body i s)

/-- Lines 173-175: `output[0]` and `output[1]` as cell indices of
`ProcessBuffer`.  The array has two entries (`main` asserts one or two
channels, line 86); an index above 1 is given the entry 1. -/
def outputPtr (output0 blockSize : Nat) (ch : Nat) : Nat :=
  if ch = 0 then output0 else output0 + blockSize

/-- Lines 127-145: `process_noninterleaved`.  The outer loop runs over the
`BlockSize` frames, the inner loop stores the sample in every channel's run. -/
def process_noninterleaved {φ α : Type} (osc : Oscillator φ α) (output : Nat → Nat)
    (g : Audio φ α) : Audio φ α :=
  let r := forLoop
    (fun i (mp : (Nat → α) × φ) =>
      let sample := osc.sample mp.2
      let mem := forLoop (fun ch m => poke m (output ch + i) sample) g.NumChannels 0 mp.1
      (mem, osc.advance g.SampleRate mp.2))
    g.BlockSize 0 (g.ProcessBufferMem, g.phase)
  { g with ProcessBufferMem := r.1, phase := r.2, generatorCalls := g.generatorCalls + 1 }

/-- What `GetBuffer` (line 151) gave: whether `FAILED(hr)`, and whether
`outBuffer` is still `NULL` after the call. -/
structure GetBufferResult where
  failed : Bool
  isNull : Bool
  deriving DecidableEq, Repr

/-- The locals of one `Audio_Process` call: the global state, the local
`remainingBlockFrames`, and the samples stored through `outBuffer` so far, in
address order (every store to the device region goes to the next free cell). -/
structure Cycle (φ α : Type) where
  g : Audio φ α
  remainingBlockFrames : Nat
  outBuffer : List α

/-- Lines 156-169: the drain of the overprocessed frames. -/
def drainOverprocessed {φ α : Type} (blockSize : Nat) (c : Cycle φ α) :
    Except Fault (Cycle φ α) :=
  if c.g.ProcessBufferNumOverprocessedFrames ≠ 0 then
    let framesToCopy :=
      if c.g.ProcessBufferNumOverprocessedFrames < c.remainingBlockFrames
      then c.g.ProcessBufferNumOverprocessedFrames
      else c.remainingBlockFrames
    let bytesToCopy := sizeofFloat * c.g.NumChannels * framesToCopy
    let copied := (List.range (bytesToCopy / sizeofFloat)).map c.g.ProcessBufferMem
    let remaining := c.remainingBlockFrames - framesToCopy
    let g1 := { c.g with
      ProcessBufferNumOverprocessedFrames :=
        c.g.ProcessBufferNumOverprocessedFrames - framesToCopy }
    my_assert (remaining < blockSize) 168
      (.ok { g := g1, remainingBlockFrames := remaining, outBuffer := c.outBuffer ++ copied })
  else .ok c

/-- Lines 186-190: the first interleave loop, frames `0 .. framesToCopy` of
the scratch stored to the device region, channel by channel. -/
def interleaveOut {α : Type} (output : Nat → Nat) (numChannels framesToCopy : Nat)
    (mem : Nat → α) (out : List α) : List α :=
  forLoop
    (fun i o => forLoop (fun ch o1 => o1 ++ [mem (output ch + i)]) numChannels 0 o)
    framesToCopy 0 out

/-- Lines 192-195: the second interleave loop, frames `framesToCopy .. BlockSize`
of the scratch stored from the start of `ProcessBuffer`; the state is the memory
and the cell index of `remainingInterleaved`. -/
def interleaveRemaining {α : Type} (output : Nat → Nat)
    (numChannels framesToCopy blockSize : Nat) (mem : Nat → α) : (Nat → α) × Nat :=
  forLoop
    (fun i (mp : (Nat → α) × Nat) =>
      forLoop (fun ch (mq : (Nat → α) × Nat) =>
        (poke mq.1 mq.2 (mq.1 (output ch + i)), mq.2 + 1)) numChannels 0 mp)
    (blockSize - framesToCopy) framesToCopy (mem, 0)

/-- Lines 183-199: what one pass of the `while` loop does after the generator
call: both interleave loops, the new overprocessed count, the new
`remainingBlockFrames`. -/
def interleaveStep {φ α : Type} (output : Nat → Nat) (c : Cycle φ α) : Cycle φ α :=
  let framesToCopy :=
    if c.remainingBlockFrames < c.g.BlockSize then c.remainingBlockFrames else c.g.BlockSize
  let out := interleaveOut output c.g.NumChannels framesToCopy c.g.ProcessBufferMem c.outBuffer
  let mem := (interleaveRemaining output c.g.NumChannels framesToCopy c.g.BlockSize
    c.g.ProcessBufferMem).1
  { g := { c.g with
      ProcessBufferMem := mem
      ProcessBufferNumOverprocessedFrames := c.g.BlockSize - framesToCopy }
    remainingBlockFrames := c.remainingBlockFrames - framesToCopy
    outBuffer := out }

/-- Lines 179-201: the body of the `while` loop. -/
def generateStep {φ α : Type} (osc : Oscillator φ α) (blockSize output0 : Nat)
    (c : Cycle φ α) : Except Fault (Cycle φ α) :=
  my_assert (c.g.ProcessBufferNumOverprocessedFrames = 0) 179
    (let output := outputPtr output0 c.g.BlockSize
     let c1 := interleaveStep output { c with g := process_noninterleaved osc output c.g }
     my_assert (c1.remainingBlockFrames < blockSize) 201 (.ok c1))

/-- Lines 177-202: `while (remainingBlockFrames > 0)`.  The first argument
bounds the number of passes; a loop still running when it is used up is
reported as `Fault.diverges`. -/
def whileRemaining {φ α : Type} (osc : Oscillator φ α) (blockSize output0 : Nat) :
    Nat → Cycle φ α → Except Fault (Cycle φ α)
  | 0, c => if c.remainingBlockFrames > 0 then .error .diverges else .ok c
  | fuel + 1, c =>
    if c.remainingBlockFrames > 0 then
      match generateStep osc blockSize output0 c with
      | .error e => .error e
      | .ok c1 => whileRemaining osc blockSize output0 fuel c1
    else .ok c

/-- Lines 171-172: the byte offset of the generator scratch in `ProcessBuffer`. -/
def processBufferOffset {φ α : Type} (g : Audio φ α) : Nat :=
  RoundUp (sizeofFloat * g.NumChannels * g.ProcessBufferMaxFrames) 32

/-- Lines 147-208: `Audio_Process`.  The `while` loop is given as many passes
as there are frames left to fill: with a non-zero `BlockSize` every pass fills
at least one, see `whileRemaining_spec`. -/
def Audio_Process {φ α : Type} (osc : Oscillator φ α) (gb : GetBufferResult)
    (blockSize : Nat) (g : Audio φ α) : Except Fault (Audio φ α) :=
  my_assert (gb.isNull = false) 152 <|
  if gb.failed then .ok g
  else
    match drainOverprocessed blockSize
        { g := g, remainingBlockFrames := blockSize, outBuffer := [] } with
    | .error e => .error e
    | .ok c1 =>
      let output0 := processBufferOffset c1.g / sizeofFloat
      match whileRemaining osc blockSize output0 c1.remainingBlockFrames c1 with
      | .error e => .error e
      | .ok c2 =>
        .ok { c2.g with
          delivered := c2.g.delivered ++ c2.outBuffer
          releasedFrames := c2.g.releasedFrames ++ [blockSize] }

/-- The program counter of the audio thread `Audio_RunProcessThread`: at its
entry (line 219), at the test of the `while` (line 223), blocked in
`WaitForSingleObject` (line 225), or returned (line 241). -/
inductive ThreadPc where
  | entry
  | loopHead
  | waiting
  | returned
  deriving DecidableEq, Repr

/-- The audio thread: its program counter and the global state it works on. -/
structure AudioThread (φ α : Type) where
  pc : ThreadPc
  g : Audio φ α

/-- What Windows answers during one step of the audio thread:
`GetCurrentPadding` (whether `FAILED(hr)`, and the padding) and `GetBuffer`. -/
structure Wake where
  paddingFailed : Bool
  padding : Nat
  buffer : GetBufferResult
  deriving DecidableEq, Repr

/-- Lines 210-242: `Audio_RunProcessThread`, one step.  From `entry` the
priming call `Audio_Process(ProcessBufferMaxFrames)` and `Start`; from
`loopHead` the test of `FlagExitAudioThread`; from `waiting` (the event has
been set and the wait returns) lines 227-238, back to the test. -/
def Audio_RunProcessThread_step {φ α : Type} (osc : Oscillator φ α) (w : Wake)
    (t : AudioThread φ α) : Except Fault (AudioThread φ α) :=
  match t.pc with
  | .entry =>
    match Audio_Process osc w.buffer t.g.ProcessBufferMaxFrames t.g with
    | .error e => .error e
    | .ok g1 => .ok { pc := .loopHead, g := g1 }
  | .loopHead =>
    if t.g.FlagExitAudioThread ≠ 0 then .ok { pc := .returned, g := t.g }
    else .ok { pc := .waiting, g := t.g }
  | .waiting =>
    if w.paddingFailed then .ok { pc := .loopHead, g := t.g }
    else
      my_assert (t.g.ProcessBufferMaxFrames ≥ w.padding) 233 <|
      let blockSize := t.g.ProcessBufferMaxFrames - w.padding
      if blockSize = 0 then .ok { pc := .loopHead, g := t.g }
      else
        match Audio_Process osc w.buffer blockSize t.g with
        | .error e => .error e
        | .ok g1 => .ok { pc := .loopHead, g := g1 }
  | .returned => .ok t

/-- The audio thread run for one step per answer of the list. -/
def Audio_RunProcessThread_run {φ α : Type} (osc : Oscillator φ α) :
    List Wake → AudioThread φ α → Except Fault (AudioThread φ α)
  | [], t => .ok t
  | w :: ws, t =>
    match Audio_RunProcessThread_step osc w t with
    | .error e => .error e
    | .ok t1 => Audio_RunProcessThread_run osc ws t1

/-- Lines 244-273: `Audio_Stop`, called while the audio thread is at `t.pc`.
After `SetEvent` the caller waits for the thread (line 257): the thread takes
its remaining steps, at most three, answered by `w`, and only then are the
handles released. -/
def Audio_Stop {φ α : Type} (osc : Oscillator φ α) (w : Wake) (t : AudioThread φ α) :
    Except Fault (AudioThread φ α) :=
  if t.g.hAudioProcessThread = false then .ok t
  else
    my_assert (t.g.FlagExitAudioThread = 0) 251 <|
    let g1 := { t.g with FlagExitAudioThread := 1 }
    my_assert (g1.hAudioEvent = true) 253 <|
    my_assert (g1.hAudioProcessThread = true) 256 <|
    match Audio_RunProcessThread_run osc [w, w, w] { pc := t.pc, g := g1 } with
    | .error e => .error e
    | .ok t2 =>
      let g2 := { t2.g with hAudioProcessThread := false }
      my_assert (g2.pIAudioClient = true) 261 <|
      my_assert (g2.pIAudioRenderClient = true) 263 <|
      my_assert (g2.pIAudioClient = true) 265 <|
      let g3 := { g2 with pIAudioClient := false, pIAudioRenderClient := false }
      my_assert (g3.hAudioEvent = true) 270 <|
      .ok { pc := t2.pc, g := { g3 with hAudioEvent := false } }

/-- What Windows answers during `Audio_Start`: whether `Activate`,
`Initialize` and `GetBufferSize` succeed, the buffer size in frames that
`GetBufferSize` stores, the render client of `GetService`, the handle of
`CreateEventA`, the memory of `VirtualAlloc` (`none`: `NULL`) and the handle
of `CreateThread`. -/
structure StartEnv (α : Type) where
  activateOk : Bool
  initializeOk : Bool
  getBufferSizeOk : Bool
  bufferSize : Nat
  renderClient : Bool
  eventHandle : Bool
  virtualAlloc : Option (Nat → α)
  threadHandle : Bool

/-- Lines 378-383: the capacity in bytes that `Audio_Start` requires. -/
def requiredCap (numChannels maxFrames blockSize : Nat) : Nat :=
  let req_bytes_reserve := RoundUp (sizeofFloat * numChannels * maxFrames) 32
  let req_bytes_processing := RoundUp (sizeofFloat * numChannels * blockSize) 32
  RoundUp (req_bytes_reserve + req_bytes_processing) 4096

/-- Lines 384-393: the buffer is freed and allocated again only when the
required capacity exceeds the capacity held; `VirtualFree` leaves no trace in
the state. -/
def reallocate {φ α : Type} (env : StartEnv α) (g : Audio φ α) : Except Fault (Audio φ α) :=
  let cap := requiredCap g.NumChannels g.ProcessBufferMaxFrames g.BlockSize
  if cap > g.ProcessBufferCap then
    match env.virtualAlloc with
    | none => my_assert False 392 (.ok g)
    | some mem =>
      .ok { g with
        ProcessBufferCap := cap
        ProcessBuffer := true
        ProcessBufferMem := mem
        allocations := g.allocations + 1 }
  else .ok g

/-- Lines 312-400: `Audio_Start`, up to the creation of the audio thread. -/
def Audio_Start {φ α : Type} (env : StartEnv α) (g : Audio φ α) : Except Fault (Audio φ α) :=
  my_assert (g.SampleRate ≠ 0) 314 <|
  my_assert (g.BlockSize ≠ 0) 315 <|
  my_assert (g.pIMMDevice = true) 322 <|
  my_assert (g.pIAudioClient = false) 323 <|
  my_assert (env.activateOk = true) 330 <|
  my_assert (env.initializeOk = true) 363 <|
  my_assert (env.getBufferSizeOk = true) 366 <|
  my_assert (g.hAudioEvent = false) 373 <|
  my_assert (env.eventHandle = true) 375 <|
  let g1 := { g with
    pIAudioClient := true
    ProcessBufferMaxFrames := env.bufferSize
    pIAudioRenderClient := env.renderClient
    hAudioEvent := true }
  match reallocate env g1 with
  | .error e => .error e
  | .ok g2 =>
    my_assert (env.threadHandle = true) 399 <|
    .ok { g2 with
      ProcessBufferNumOverprocessedFrames := 0
      FlagExitAudioThread := 0
      hAudioProcessThread := true }

/-- One `Audio_Process` cycle per request of the list, each with its own
answer of `GetBuffer`. -/
def runCycles {φ α : Type} (osc : Oscillator φ α) :
    List (GetBufferResult × Nat) → Audio φ α → Except Fault (Audio φ α)
  | [], g => .ok g
  | (gb, n) :: rest, g =>
    match Audio_Process osc gb n g with
    | .error e => .error e
    | .ok g1 => runCycles osc rest g1

/-- A `GetBuffer` that succeeds and stores a buffer address. -/
def acquired : GetBufferResult := { failed := false, isNull := false }

/-- The requests of a list, each acquired. -/
def requests (ns : List Nat) : List (GetBufferResult × Nat) :=
  ns.map (fun n => (acquired, n))

/-- One operation of a session: `Audio_Start` (the new thread is at its
entry), `Audio_Stop`, or one step of the audio thread. -/
inductive SessionOp (α : Type) where
  | start (env : StartEnv α)
  | stop (w : Wake)
  | step (w : Wake)

/-- A session: the operations of the list in order. -/
def runSession {φ α : Type} (osc : Oscillator φ α) :
    List (SessionOp α) → AudioThread φ α → Except Fault (AudioThread φ α)
  | [], t => .ok t
  | .start env :: ops, t =>
    match Audio_Start env t.g with
    | .error e => .error e
    | .ok g1 => runSession osc ops { pc := .entry, g := g1 }
  | .stop w :: ops, t =>
    match Audio_Stop osc w t with
    | .error e => .error e
    | .ok t1 => runSession osc ops t1
  | .step w :: ops, t =>
    match Audio_RunProcessThread_step osc w t with
    | .error e => .error e
    | .ok t1 => runSession osc ops t1

/-- The states `g` and `g1` agree on every field of `g_Audio` that
`Audio_Process` does not write. -/
structure SameSetup {φ α : Type} (g g1 : Audio φ α) : Prop where
  pIMMDevice : g1.pIMMDevice = g.pIMMDevice
  pIAudioClient : g1.pIAudioClient = g.pIAudioClient
  pIAudioRenderClient : g1.pIAudioRenderClient = g.pIAudioRenderClient
  hAudioEvent : g1.hAudioEvent = g.hAudioEvent
  hAudioProcessThread : g1.hAudioProcessThread = g.hAudioProcessThread
  flagExitAudioThread : g1.FlagExitAudioThread = g.FlagExitAudioThread
  processBufferCap : g1.ProcessBufferCap = g.ProcessBufferCap
  processBuffer : g1.ProcessBuffer = g.ProcessBuffer
  processBufferMaxFrames : g1.ProcessBufferMaxFrames = g.ProcessBufferMaxFrames
  numChannels : g1.NumChannels = g.NumChannels
  sampleRate : g1.SampleRate = g.SampleRate
  blockSize : g1.BlockSize = g.BlockSize
  allocations : g1.allocations = g.allocations

/-- The stream the device should receive, in the words of the specification:
the generator called `k` times in a row, each block of `BlockSize` frames
interleaved channel by channel, the blocks one after the other.  The blocks
are generated into the scratch at cell `output0` of the state's own memory. -/
def generatorStream {φ α : Type} (osc : Oscillator φ α) (output0 : Nat) :
    Nat → Audio φ α → List α
  | 0, _ => []
  | k + 1, g =>
    let g1 := process_noninterleaved osc (outputPtr output0 g.BlockSize) g
    interleaveOut (outputPtr output0 g.BlockSize) g.NumChannels g.BlockSize
        g1.ProcessBufferMem []
      ++ generatorStream osc output0 k g1

/-- The samples delivered to the device by a run, when it returns. -/
def deliveredBy {φ α : Type} (r : Except Fault (Audio φ α)) : Option (List α) :=
  match r with
  | .ok g => some g.delivered
  | .error _ => none

/-- The overprocessed count and the number of generator calls of a run, when
it returns. -/
def countersOf {φ α : Type} (r : Except Fault (Audio φ α)) : Option (Nat × Nat) :=
  match r with
  | .ok g => some (g.ProcessBufferNumOverprocessedFrames, g.generatorCalls)
  | .error _ => none

/-- An oscillator for examples: the phase counts the frames generated so far
and the sample is the phase, so frame `t` of the stream is `t` in every
channel. -/
def counterOsc : Oscillator Nat Nat :=
  { sample := fun p => p, advance := fun _ p => p + 1 }

/-- The state of `main` before `Audio_Start` (lines 82-101): `g_Audio` zeroed,
the configuration set, the device chosen. -/
def configured (numChannels blockSize : Nat) : Audio Nat Nat :=
  { pIMMDevice := true
    pIAudioClient := false
    pIAudioRenderClient := false
    hAudioEvent := false
    hAudioProcessThread := false
    FlagExitAudioThread := 0
    ProcessBufferCap := 0
    ProcessBuffer := false
    ProcessBufferMem := fun _ => 0
    ProcessBufferMaxFrames := 0
    ProcessBufferNumOverprocessedFrames := 0
    NumChannels := numChannels
    SampleRate := 48000
    BlockSize := blockSize
    phase := 0
    generatorCalls := 0
    delivered := []
    releasedFrames := []
    allocations := 0 }

/-- Windows answering every call of `Audio_Start` with success, a device
buffer of `maxFrames` frames and zeroed memory. -/
def startEnv (maxFrames : Nat) : StartEnv Nat :=
  { activateOk := true
    initializeOk := true
    getBufferSizeOk := true
    bufferSize := maxFrames
    renderClient := true
    eventHandle := true
    virtualAlloc := some (fun _ => 0)
    threadHandle := true }

/-- The state that `Audio_Start` leaves from `configured`, see
`started_eq`. -/
def started (numChannels blockSize maxFrames : Nat) : Audio Nat Nat :=
  { configured numChannels blockSize with
    pIAudioClient := true
    pIAudioRenderClient := true
    hAudioEvent := true
    hAudioProcessThread := true
    ProcessBufferCap := requiredCap numChannels maxFrames blockSize
    ProcessBuffer := true
    ProcessBufferMaxFrames := maxFrames
    allocations := 1 }

/-- The state a run returns, and `g` when it does not return. -/
def stateOr {φ α : Type} (r : Except Fault (Audio φ α)) (g : Audio φ α) : Audio φ α :=
  match r with
  | .ok g1 => g1
  | .error _ => g

/-- The thread a run returns, and `t` when it does not return. -/
def threadOr {φ α : Type} (r : Except Fault (AudioThread φ α)) (t : AudioThread φ α) :
    AudioThread φ α :=
  match r with
  | .ok t1 => t1
  | .error _ => t

/-- A running session with `pending` overprocessed frames. -/
def startedWith (numChannels blockSize maxFrames pending : Nat) : Audio Nat Nat :=
  { started numChannels blockSize maxFrames with
    ProcessBufferNumOverprocessedFrames := pending }

/-- Windows answering a step of the audio thread: `GetCurrentPadding` succeeds
with the given padding and `GetBuffer` gives a buffer. -/
def wakeWith (padding : Nat) : Wake :=
  { paddingFailed := false, padding := padding, buffer := acquired }

/-- The audio thread before the first `Audio_Start`. -/
def notStarted (numChannels blockSize : Nat) : AudioThread Nat Nat :=
  { pc := .returned, g := configured numChannels blockSize }

/-- The locals of a pass of the `while` loop in a session with two channels,
blocks of 16 frames and a device buffer of one frame, with one frame left to
fill; every cell of `ProcessBuffer` holds its own index, so the scratch sample
of channel `ch` and frame `i` is `8 + 16 * ch + i`. -/
def narrowCycle : Cycle Nat Nat :=
  { g := { started 2 16 1 with ProcessBufferMem := fun k => k }
    remainingBlockFrames := 1
    outBuffer := [] }

/-- The locals of a pass of the `while` loop with two channels, blocks of 3
frames and `remaining` frames left to fill; the scratch, at cell 8, holds
`[10, 11, 12]` for channel 0 and `[20, 21, 22]` for channel 1. -/
def stereoCycle (remaining : Nat) : Cycle Nat Nat :=
  { g := { started 2 3 4 with
      ProcessBufferMem := fun k => if k < 8 then 0 else if k < 11 then k + 2 else k + 9 }
    remainingBlockFrames := remaining
    outBuffer := [] }

/-- The sample of frame `t` of the generator started at phase `p0`: the
oscillator advanced `t` times, then sampled. -/
def frameSample {φ α : Type} (osc : Oscillator φ α) (sampleRate : Nat) (p0 : φ) (t : Nat) : α :=
  osc.sample ((osc.advance sampleRate)^[t] p0)

/-- The interleaved samples of the frames `start .. start + count` of the
generator started at phase `p0`: every frame gives its sample once per
channel. -/
def streamCells {φ α : Type} (osc : Oscillator φ α) (sampleRate numChannels : Nat) (p0 : φ)
    (start count : Nat) : List α :=
  (List.range (numChannels * count)).map
    (fun j => frameSample osc sampleRate p0 (start + j / numChannels))

/-- The pending count that a cycle leaves when it is asked for `n` frames with
`pending ≤ n` frames pending: what is left of the last block generated. -/
def pendingAfter (blockSize pending n : Nat) : Nat :=
  (blockSize - (n - pending) % blockSize) % blockSize

/-- Every request of the list asks for at least the frames pending when it is
made, starting with `pending` frames. -/
def Covering (blockSize : Nat) : Nat → List Nat → Prop
  | _, [] => True
  | pending, n :: ns => pending ≤ n ∧ Covering blockSize (pendingAfter blockSize pending n) ns

instance decidableCovering (blockSize : Nat) :
    (pending : Nat) → (ns : List Nat) → Decidable (Covering blockSize pending ns)
  | _, [] => isTrue trivial
  | pending, n :: ns =>
    have := decidableCovering blockSize (pendingAfter blockSize pending n) ns
    inferInstanceAs
      (Decidable (pending ≤ n ∧ Covering blockSize (pendingAfter blockSize pending n) ns))

/-- The locals of a cycle are in step with the generator stream started at
phase `p0`, after `T` frames delivered by earlier cycles and `w` frames stored
by this one: the device region holds the frames `T .. T + w`, the pending
frames are the next frames of the stream, and the phase is the phase after
all of them. -/
def CycleInSync {φ α : Type} (osc : Oscillator φ α) (p0 : φ) (T w : Nat) (c : Cycle φ α) :
    Prop :=
  c.g.phase
    = (osc.advance c.g.SampleRate)^[T + w + c.g.ProcessBufferNumOverprocessedFrames] p0 ∧
  (∀ j, j < c.g.NumChannels * c.g.ProcessBufferNumOverprocessedFrames →
    c.g.ProcessBufferMem j
      = frameSample osc c.g.SampleRate p0 (T + w + j / c.g.NumChannels)) ∧
  c.outBuffer = streamCells osc c.g.SampleRate c.g.NumChannels p0 T w

/-- The state is in step with the generator stream started at phase `p0`,
after `T` frames delivered on top of `d0`: the device has received the frames
`0 .. T`, the pending frames are the next frames of the stream, and the phase
is the phase after all of them. -/
def InSync {φ α : Type} (osc : Oscillator φ α) (p0 : φ) (d0 : List α) (T : Nat)
    (g : Audio φ α) : Prop :=
  g.phase = (osc.advance g.SampleRate)^[T + g.ProcessBufferNumOverprocessedFrames] p0 ∧
  (∀ j, j < g.NumChannels * g.ProcessBufferNumOverprocessedFrames →
    g.ProcessBufferMem j = frameSample osc g.SampleRate p0 (T + j / g.NumChannels)) ∧
  g.delivered = d0 ++ streamCells osc g.SampleRate g.NumChannels p0 0 T

/-- The session of `main` (two channels, blocks of 512 frames) on a device
buffer of 1032 frames, after the priming cycle `Audio_Process(1032)` of the
audio thread. -/
def primed : Audio Nat Nat :=
  stateOr (Audio_Process counterOsc acquired 1032 (started 2 512 1032)) (started 2 512 1032)

/-! ## Loops -/

variable {φ α S : Type}

theorem my_assert_pos {β : Type} {cond : Prop} [Decidable cond] (h : cond) (line : Nat)
    (k : Except Fault β) : my_assert cond line k = k := by
  simp [my_assert, h]

theorem my_assert_neg {β : Type} {cond : Prop} [Decidable cond] (h : ¬ cond) (line : Nat)
    (k : Except Fault β) : my_assert cond line k = .error (.assertion line) := by
  simp [my_assert, h]

theorem my_assert_eq_ok {β : Type} {cond : Prop} [Decidable cond] (line : Nat)
    (k : Except Fault β) (x : β) : my_assert cond line k = .ok x ↔ cond ∧ k = .ok x := by
  by_cases h : cond <;> simp [my_assert, h]

theorem forLoop_succ_last (body : Nat → S → S) (n i : Nat) (s : S) :
    forLoop body (n + 1) i s = body (i + n) (forLoop body n i s) := by
  induction n generalizing i s with
  | zero => simp [forLoop]
  | succ n ih =>
    rw [forLoop, ih (i + 1) (body i s)]
    have : i + 1 + n = i + (n + 1) := by omega
    rw [this]
    rfl

theorem forLoop_append_singleton (f : Nat → α) (n : Nat) (o : List α) :
    forLoop (fun ch o1 => o1 ++ [f ch]) n 0 o = o ++ (List.range n).map f := by
  induction n with
  | zero => simp [forLoop]
  | succ n ih =>
    rw [forLoop_succ_last, ih, List.range_succ]
    simp

/-- The first interleave loop appends, for `j < numChannels * framesToCopy`,
the scratch sample of channel `j % numChannels` and frame `j / numChannels`. -/
theorem interleaveOut_eq (output : Nat → Nat) (C m : Nat) (mem : Nat → α) (out : List α) :
    interleaveOut output C m mem out
      = out ++ (List.range (C * m)).map (fun j => mem (output (j % C) + j / C)) := by
  induction m with
  | zero => simp [interleaveOut, forLoop]
  | succ m ih =>
    unfold interleaveOut at ih ⊢
    rw [forLoop_succ_last, ih, forLoop_append_singleton, Nat.mul_succ, List.range_add,
      List.map_append, List.map_map, List.append_assoc]
    congr 2
    apply List.map_congr_left
    intro x hx
    have hxC : x < C := List.mem_range.mp hx
    have hC : 0 < C := by omega
    simp [Function.comp, Nat.mul_add_mod, Nat.mod_eq_of_lt hxC, Nat.mul_add_div hC,
      Nat.div_eq_of_lt hxC]

/-- A run of stores to consecutive cells from `p`, each of a value read at
`r k`, when no read address lies in the written range. -/
theorem forLoop_poke (r : Nat → Nat) (n k0 p : Nat) (mem : Nat → α)
    (hr : ∀ k, k0 ≤ k → k < k0 + n → p + n ≤ r k) :
    forLoop (fun k (mq : (Nat → α) × Nat) => (poke mq.1 mq.2 (mq.1 (r k)), mq.2 + 1)) n k0 (mem, p)
      = (fun j => if p ≤ j ∧ j < p + n then mem (r (k0 + (j - p))) else mem j, p + n) := by
  induction n generalizing k0 p mem with
  | zero =>
    simp only [forLoop, Nat.add_zero]
    congr 1
    funext j
    have : ¬ (p ≤ j ∧ j < p) := by omega
    simp [this]
  | succ n ih =>
    rw [forLoop]
    simp only []
    rw [ih (k0 + 1) (p + 1) _ (fun k h1 h2 => by have := hr k (by omega) (by omega); omega)]
    have e : p + 1 + n = p + (n + 1) := by omega
    rw [e]
    congr 1
    funext j
    by_cases h1 : p + 1 ≤ j ∧ j < p + (n + 1)
    · have h2 : p ≤ j ∧ j < p + (n + 1) := by omega
      have h3 := hr (k0 + 1 + (j - (p + 1))) (by omega) (by omega)
      have h4 : k0 + 1 + (j - (p + 1)) = k0 + (j - p) := by omega
      simp only [h1, h2, and_self, if_true, poke]
      rw [if_neg (by omega), h4]
    · simp only [h1, if_false, poke]
      by_cases h5 : j = p
      · subst h5
        have : j ≤ j ∧ j < j + (n + 1) := by omega
        simp [this]
      · have : ¬ (p ≤ j ∧ j < p + (n + 1)) := by omega
        simp [this, h5]

/-- The stores of frames `i0 .. i0 + n` by the second interleave loop, from cell
`p` on, when every scratch cell read lies at or after the end of the written
range. -/
theorem forLoop_interleave_poke (output : Nat → Nat) (C n i0 p : Nat) (mem : Nat → α)
    (hr : ∀ ch i, ch < C → i0 ≤ i → i < i0 + n → p + C * n ≤ output ch + i) :
    forLoop (fun i (mp : (Nat → α) × Nat) =>
        forLoop (fun ch (mq : (Nat → α) × Nat) =>
          (poke mq.1 mq.2 (mq.1 (output ch + i)), mq.2 + 1)) C 0 mp) n i0 (mem, p)
      = (fun j => if p ≤ j ∧ j < p + C * n
          then mem (output ((j - p) % C) + (i0 + (j - p) / C)) else mem j, p + C * n) := by
  induction n generalizing i0 p mem with
  | zero =>
    simp only [forLoop, Nat.mul_zero, Nat.add_zero]
    congr 1
    funext j
    have : ¬ (p ≤ j ∧ j < p) := by omega
    simp [this]
  | succ n ih =>
    have hmul : C * (n + 1) = C + C * n := by rw [Nat.mul_succ]; omega
    rw [forLoop]
    rw [forLoop_poke (fun ch => output ch + i0) C 0 p mem
      (fun k _ h2 => by
        have := hr k i0 (by omega) (by omega) (by omega)
        rw [hmul] at this
        have : p + C ≤ output k + i0 := by omega
        exact this)]
    rw [ih (i0 + 1) (p + C) _ (fun ch i hch h1 h2 => by
        have := hr ch i hch (by omega) (by omega)
        rw [hmul] at this
        omega)]
    have e : p + C + C * n = p + C * (n + 1) := by rw [hmul]; omega
    rw [e]
    congr 1
    funext j
    by_cases h1 : p + C ≤ j ∧ j < p + C * (n + 1)
    · have hC : 0 < C := by
        rcases Nat.eq_zero_or_pos C with h | h
        · subst h; simp at h1; omega
        · exact h
      have h2 : p ≤ j ∧ j < p + C * (n + 1) := by omega
      have hd : j - p = (j - (p + C)) + C := by omega
      have hmod : (j - (p + C)) % C = (j - p) % C := by rw [hd, Nat.add_mod_right]
      have hdiv : i0 + 1 + (j - (p + C)) / C = i0 + (j - p) / C := by
        rw [hd, Nat.add_div_right _ hC]; omega
      have hlt : (j - p) % C < C := Nat.mod_lt _ hC
      have hdlt : (j - p) / C < n + 1 := by
        rw [Nat.div_lt_iff_lt_mul hC]
        have : j - p < C * (n + 1) := by omega
        rw [Nat.mul_comm]; exact this
      have h3 := hr ((j - p) % C) (i0 + (j - p) / C) hlt (Nat.le_add_right _ _)
        (Nat.add_lt_add_left hdlt _)
      simp only [h1, h2, and_self, if_true, hmod, hdiv]
      rw [if_neg (by rw [hmul] at h3; omega)]
    · simp only [h1, if_false]
      by_cases h5 : p ≤ j ∧ j < p + C
      · have h6 : p ≤ j ∧ j < p + C * (n + 1) := by rw [hmul]; omega
        have h7 : (j - p) % C = j - p := Nat.mod_eq_of_lt (by omega)
        have h8 : (j - p) / C = 0 := Nat.div_eq_of_lt (by omega)
        simp only [h5, h6, and_self, if_true, h7, h8, Nat.zero_add, Nat.add_zero]
      · have h6 : ¬ (p ≤ j ∧ j < p + C * (n + 1)) := by rw [hmul]; omega
        simp only [h5, h6, if_false]

theorem SameSetup.refl (g : Audio φ α) : SameSetup g g := by
  constructor <;> rfl

theorem SameSetup.trans {g g1 g2 : Audio φ α} (h1 : SameSetup g g1) (h2 : SameSetup g1 g2) :
    SameSetup g g2 := by
  constructor
  · exact h2.pIMMDevice.trans h1.pIMMDevice
  · exact h2.pIAudioClient.trans h1.pIAudioClient
  · exact h2.pIAudioRenderClient.trans h1.pIAudioRenderClient
  · exact h2.hAudioEvent.trans h1.hAudioEvent
  · exact h2.hAudioProcessThread.trans h1.hAudioProcessThread
  · exact h2.flagExitAudioThread.trans h1.flagExitAudioThread
  · exact h2.processBufferCap.trans h1.processBufferCap
  · exact h2.processBuffer.trans h1.processBuffer
  · exact h2.processBufferMaxFrames.trans h1.processBufferMaxFrames
  · exact h2.numChannels.trans h1.numChannels
  · exact h2.sampleRate.trans h1.sampleRate
  · exact h2.blockSize.trans h1.blockSize
  · exact h2.allocations.trans h1.allocations

theorem sizeofFloat_mul_div (a b : Nat) : sizeofFloat * a * b / sizeofFloat = a * b := by
  rw [Nat.mul_assoc]
  exact Nat.mul_div_cancel_left _ (by decide)

/-- The frames one pass of the `while` loop consumes. -/
theorem framesToCopy_pos {r b : Nat} (hr : 0 < r) (hb : 0 < b) :
    0 < (if r < b then r else b) := by
  split <;> assumption

/-- The body of the `while` loop, when its two assertions hold. -/
theorem generateStep_ok (osc : Oscillator φ α) (bs o0 : Nat) (c : Cycle φ α)
    (hK : c.g.ProcessBufferNumOverprocessedFrames = 0) (hB : 0 < c.g.BlockSize)
    (hr : 0 < c.remainingBlockFrames) (hbs : c.remainingBlockFrames ≤ bs) :
    generateStep osc bs o0 c = .ok (interleaveStep (outputPtr o0 c.g.BlockSize)
      { c with g := process_noninterleaved osc (outputPtr o0 c.g.BlockSize) c.g }) := by
  unfold generateStep
  rw [my_assert_pos hK]
  have hlt : (interleaveStep (outputPtr o0 c.g.BlockSize)
      { c with g := process_noninterleaved osc (outputPtr o0 c.g.BlockSize) c.g }).remainingBlockFrames
      < bs := by
    have := framesToCopy_pos hr hB
    simp only [interleaveStep, process_noninterleaved]
    omega
  exact my_assert_pos hlt _ _

/-- What one pass of the `while` loop does to the counters. -/
theorem interleaveStep_counters (osc : Oscillator φ α) (output : Nat → Nat) (c : Cycle φ α) :
    let c1 := interleaveStep output { c with g := process_noninterleaved osc output c.g }
    let m := if c.remainingBlockFrames < c.g.BlockSize then c.remainingBlockFrames else c.g.BlockSize
    SameSetup c.g c1.g ∧
    c1.remainingBlockFrames = c.remainingBlockFrames - m ∧
    c1.g.ProcessBufferNumOverprocessedFrames = c.g.BlockSize - m ∧
    c1.g.generatorCalls = c.g.generatorCalls + 1 ∧
    c1.g.delivered = c.g.delivered ∧
    c1.g.releasedFrames = c.g.releasedFrames ∧
    c1.outBuffer.length = c.outBuffer.length + c.g.NumChannels * m := by
  refine ⟨?_, rfl, rfl, rfl, rfl, rfl, ?_⟩
  · constructor <;> rfl
  · simp only [interleaveStep, process_noninterleaved, interleaveOut_eq]
    simp

/-- The `while` loop ends and fills the rest of the request: with a non-zero
`BlockSize`, at most `remainingBlockFrames` passes are made, no assertion
fails, and the counters add up. -/
theorem whileRemaining_spec (osc : Oscillator φ α) (bs o0 : Nat) :
    ∀ (fuel : Nat) (c : Cycle φ α), 0 < c.g.BlockSize → c.remainingBlockFrames ≤ fuel →
      c.remainingBlockFrames ≤ bs →
      (c.remainingBlockFrames = 0 ∨ c.g.ProcessBufferNumOverprocessedFrames = 0) →
      ∃ c1, whileRemaining osc bs o0 fuel c = .ok c1 ∧
        c1.remainingBlockFrames = 0 ∧
        SameSetup c.g c1.g ∧
        c1.g.generatorCalls * c.g.BlockSize + c.g.ProcessBufferNumOverprocessedFrames
          = c.g.generatorCalls * c.g.BlockSize + c.remainingBlockFrames
            + c1.g.ProcessBufferNumOverprocessedFrames ∧
        (c.g.ProcessBufferNumOverprocessedFrames < c.g.BlockSize →
          c1.g.ProcessBufferNumOverprocessedFrames < c.g.BlockSize) ∧
        c1.g.delivered = c.g.delivered ∧
        c1.g.releasedFrames = c.g.releasedFrames ∧
        c1.outBuffer.length = c.outBuffer.length + c.g.NumChannels * c.remainingBlockFrames ∧
        (c.remainingBlockFrames = 0 → c1 = c) := by
  intro fuel
  induction fuel with
  | zero =>
    intro c _ hf _ _
    have h0 : c.remainingBlockFrames = 0 := by omega
    refine ⟨c, ?_, h0, SameSetup.refl _, ?_, fun h => h, rfl, rfl, ?_, fun _ => rfl⟩
    · simp [whileRemaining, h0]
    · simp [h0]
    · simp [h0]
  | succ fuel ih =>
    intro c hB hf hbs hor
    by_cases h0 : c.remainingBlockFrames = 0
    · refine ⟨c, ?_, h0, SameSetup.refl _, ?_, fun h => h, rfl, rfl, ?_, fun _ => rfl⟩
      · simp [whileRemaining, h0]
      · simp [h0]
      · simp [h0]
    · have hK : c.g.ProcessBufferNumOverprocessedFrames = 0 := by
        rcases hor with h | h
        · exact absurd h h0
        · exact h
      have hr : 0 < c.remainingBlockFrames := Nat.pos_of_ne_zero h0
      have hstep := generateStep_ok osc bs o0 c hK hB hr hbs
      obtain ⟨hs, hrem, hov, hcalls, hdel, hrel, hlen⟩ :=
        interleaveStep_counters osc (outputPtr o0 c.g.BlockSize) c
      generalize interleaveStep (outputPtr o0 c.g.BlockSize)
        { c with g := process_noninterleaved osc (outputPtr o0 c.g.BlockSize) c.g } = c1
        at hstep hs hrem hov hcalls hdel hrel hlen
      have hm := framesToCopy_pos hr hB
      have hmf : (if c.remainingBlockFrames < c.g.BlockSize then c.remainingBlockFrames
          else c.g.BlockSize) ≤ c.remainingBlockFrames ∧
          (if c.remainingBlockFrames < c.g.BlockSize then c.remainingBlockFrames
          else c.g.BlockSize) ≤ c.g.BlockSize ∧
          ((if c.remainingBlockFrames < c.g.BlockSize then c.remainingBlockFrames
            else c.g.BlockSize) = c.remainingBlockFrames ∨
          (if c.remainingBlockFrames < c.g.BlockSize then c.remainingBlockFrames
            else c.g.BlockSize) = c.g.BlockSize) := by
        split <;> omega
      generalize (if c.remainingBlockFrames < c.g.BlockSize then c.remainingBlockFrames
        else c.g.BlockSize) = m at hrem hov hlen hm hmf
      obtain ⟨hmr, hmB, hmor⟩ := hmf
      have hB1 : c1.g.BlockSize = c.g.BlockSize := hs.blockSize
      have hC1 : c1.g.NumChannels = c.g.NumChannels := hs.numChannels
      obtain ⟨c2, hrun, h20, hs2, hcount, hlt, hdel2, hrel2, hlen2, _⟩ :=
        ih c1 (by rw [hB1]; exact hB) (by omega) (by omega) (by omega)
      rw [hB1, hov, hcalls, hrem, Nat.succ_mul] at hcount
      rw [hB1, hov] at hlt
      rw [hC1, hlen, hrem] at hlen2
      refine ⟨c2, ?_, h20, hs.trans hs2, ?_, fun _ => hlt (by omega), hdel2.trans hdel,
        hrel2.trans hrel, ?_, fun h => absurd h h0⟩
      · simp [whileRemaining, hr, hstep, hrun]
      · omega
      · rw [hlen2, Nat.add_assoc, ← Nat.mul_add]
        congr 2
        omega

/-- The drain at the start of a cycle: unless frames are pending and none is
requested, the assertion of line 168 holds and `min pending requested` frames
are copied from the start of `ProcessBuffer`. -/
theorem drainOverprocessed_spec (n : Nat) (g : Audio φ α)
    (hpend : g.ProcessBufferNumOverprocessedFrames = 0 ∨ 0 < n) :
    drainOverprocessed n { g := g, remainingBlockFrames := n, outBuffer := [] }
      = .ok
        { g := { g with ProcessBufferNumOverprocessedFrames :=
            g.ProcessBufferNumOverprocessedFrames - min g.ProcessBufferNumOverprocessedFrames n }
          remainingBlockFrames := n - min g.ProcessBufferNumOverprocessedFrames n
          outBuffer := (List.range
            (g.NumChannels * min g.ProcessBufferNumOverprocessedFrames n)).map
              g.ProcessBufferMem } := by
  unfold drainOverprocessed
  by_cases hK : g.ProcessBufferNumOverprocessedFrames = 0
  · cases g
    simp_all
  · have hn : 0 < n := by
      rcases hpend with h | h
      · exact absurd h hK
      · exact h
    have hmin : (if g.ProcessBufferNumOverprocessedFrames < n
        then g.ProcessBufferNumOverprocessedFrames else n)
        = min g.ProcessBufferNumOverprocessedFrames n := by
      split
      · rw [Nat.min_eq_left (by omega)]
      · rw [Nat.min_eq_right (by omega)]
    have hpos : 0 < min g.ProcessBufferNumOverprocessedFrames n := by
      rw [Nat.lt_min]; omega
    simp only [hK, ne_eq, not_false_eq_true, if_true, hmin, sizeofFloat_mul_div, List.nil_append]
    rw [my_assert_pos (by omega)]

/-- With frames pending, a request of zero frames stops at the assertion of
line 168. -/
theorem Audio_Process_zero_pending (osc : Oscillator φ α) (gb : GetBufferResult)
    (hnull : gb.isNull = false) (hfail : gb.failed = false) (g : Audio φ α)
    (hK : g.ProcessBufferNumOverprocessedFrames ≠ 0) :
    Audio_Process osc gb 0 g = .error (.assertion 168) := by
  simp [Audio_Process, hnull, hfail, drainOverprocessed, hK, my_assert]

/-- A cycle whose buffer is acquired, with a non-zero `BlockSize` and not a
zero request over pending frames: the call returns, the request is filled
exactly and the counters add up. -/
theorem Audio_Process_acquired (osc : Oscillator φ α) (gb : GetBufferResult)
    (hnull : gb.isNull = false) (hfail : gb.failed = false) (n : Nat) (g : Audio φ α)
    (hB : 0 < g.BlockSize) (hpend : g.ProcessBufferNumOverprocessedFrames = 0 ∨ 0 < n) :
    ∃ g1, Audio_Process osc gb n g = .ok g1 ∧
      SameSetup g g1 ∧
      g1.generatorCalls * g.BlockSize + g.ProcessBufferNumOverprocessedFrames
        = g.generatorCalls * g.BlockSize + n + g1.ProcessBufferNumOverprocessedFrames ∧
      (g.ProcessBufferNumOverprocessedFrames < g.BlockSize →
        g1.ProcessBufferNumOverprocessedFrames < g.BlockSize) ∧
      g1.releasedFrames = g.releasedFrames ++ [n] ∧
      g1.delivered.length = g.delivered.length + g.NumChannels * n := by
  have hd := drainOverprocessed_spec n g hpend
  generalize hf : min g.ProcessBufferNumOverprocessedFrames n = f at hd
  have hfK : f ≤ g.ProcessBufferNumOverprocessedFrames := by rw [← hf]; exact Nat.min_le_left _ _
  have hfn : f ≤ n := by rw [← hf]; exact Nat.min_le_right _ _
  have hor : f = g.ProcessBufferNumOverprocessedFrames ∨ f = n := by
    rw [← hf]; rcases Nat.le_total g.ProcessBufferNumOverprocessedFrames n with h | h
    · left; exact Nat.min_eq_left h
    · right; exact Nat.min_eq_right h
  obtain ⟨c2, hrun, h20, hs2, hcount, hlt, hdel2, hrel2, hlen2, _⟩ :=
    whileRemaining_spec osc n (processBufferOffset g / sizeofFloat) (n - f)
      { g := { g with ProcessBufferNumOverprocessedFrames :=
            g.ProcessBufferNumOverprocessedFrames - f }
        remainingBlockFrames := n - f
        outBuffer := (List.range (g.NumChannels * f)).map g.ProcessBufferMem }
      hB (Nat.le_refl _) (Nat.sub_le _ _) (by simp only []; omega)
  simp only [List.length_map, List.length_range] at hcount hlt hdel2 hrel2 hlen2
  refine ⟨{ c2.g with
      delivered := c2.g.delivered ++ c2.outBuffer
      releasedFrames := c2.g.releasedFrames ++ [n] }, ?_, ?_, ?_, ?_, ?_, ?_⟩
  · simp only [Audio_Process, hnull, hfail, hd, processBufferOffset, my_assert]
    simp only [Bool.false_eq_true, if_false, if_true]
    rw [show RoundUp (sizeofFloat * g.NumChannels * g.ProcessBufferMaxFrames) 32 / sizeofFloat
      = processBufferOffset g / sizeofFloat from rfl, hrun]
  · constructor
    · exact hs2.pIMMDevice
    · exact hs2.pIAudioClient
    · exact hs2.pIAudioRenderClient
    · exact hs2.hAudioEvent
    · exact hs2.hAudioProcessThread
    · exact hs2.flagExitAudioThread
    · exact hs2.processBufferCap
    · exact hs2.processBuffer
    · exact hs2.processBufferMaxFrames
    · exact hs2.numChannels
    · exact hs2.sampleRate
    · exact hs2.blockSize
    · exact hs2.allocations
  · simp only []
    omega
  · intro h
    exact hlt (by omega)
  · simp only [hrel2]
  · simp only [List.length_append, hdel2, hlen2]
    rw [← Nat.mul_add]
    congr 2
    omega

theorem generateStep_sameSetup (osc : Oscillator φ α) (bs o0 : Nat) (c c1 : Cycle φ α)
    (h : generateStep osc bs o0 c = .ok c1) : SameSetup c.g c1.g := by
  simp only [generateStep, my_assert_eq_ok] at h
  obtain ⟨_, _, h⟩ := h
  cases h
  exact (interleaveStep_counters osc (outputPtr o0 c.g.BlockSize) c).1

theorem whileRemaining_sameSetup (osc : Oscillator φ α) (bs o0 : Nat) :
    ∀ (fuel : Nat) (c c1 : Cycle φ α), whileRemaining osc bs o0 fuel c = .ok c1 →
      SameSetup c.g c1.g := by
  intro fuel
  induction fuel with
  | zero =>
    intro c c1 h
    unfold whileRemaining at h
    split at h
    · cases h
    · cases h
      exact SameSetup.refl _
  | succ fuel ih =>
    intro c c1 h
    unfold whileRemaining at h
    split at h
    · split at h
      · cases h
      · rename_i c2 hstep
        exact (generateStep_sameSetup osc bs o0 c c2 hstep).trans (ih c2 c1 h)
    · cases h
      exact SameSetup.refl _

theorem drainOverprocessed_sameSetup (bs : Nat) (c c1 : Cycle φ α)
    (h : drainOverprocessed bs c = .ok c1) : SameSetup c.g c1.g := by
  simp only [drainOverprocessed] at h
  split at h
  · rw [my_assert_eq_ok] at h
    obtain ⟨_, h⟩ := h
    cases h
    constructor <;> rfl
  · cases h
    exact SameSetup.refl _

/-- `Audio_Process` writes none of the configuration fields of `g_Audio`. -/
theorem Audio_Process_sameSetup (osc : Oscillator φ α) (gb : GetBufferResult) (n : Nat)
    (g g1 : Audio φ α) (h : Audio_Process osc gb n g = .ok g1) : SameSetup g g1 := by
  unfold Audio_Process at h
  rw [my_assert_eq_ok] at h
  obtain ⟨_, h⟩ := h
  · split at h
    · cases h
      exact SameSetup.refl _
    · split at h
      · cases h
      · rename_i c1 hd
        dsimp only at h
        split at h
        · cases h
        · rename_i c2 hw
          cases h
          have h1 := drainOverprocessed_sameSetup _ _ _ hd
          have h2 := whileRemaining_sameSetup _ _ _ _ _ _ hw
          have h3 := h1.trans h2
          constructor
          · exact h3.pIMMDevice
          · exact h3.pIAudioClient
          · exact h3.pIAudioRenderClient
          · exact h3.hAudioEvent
          · exact h3.hAudioProcessThread
          · exact h3.flagExitAudioThread
          · exact h3.processBufferCap
          · exact h3.processBuffer
          · exact h3.processBufferMaxFrames
          · exact h3.numChannels
          · exact h3.sampleRate
          · exact h3.blockSize
          · exact h3.allocations

/-- Every call of `Audio_Process` that returns, with a non-zero `BlockSize`:
either the acquisition failed and nothing changed, or the request was filled. -/
theorem Audio_Process_sound (osc : Oscillator φ α) (gb : GetBufferResult) (n : Nat)
    (g g1 : Audio φ α) (hB : 0 < g.BlockSize) (h : Audio_Process osc gb n g = .ok g1) :
    (gb.failed = true ∧ g1 = g) ∨
    (gb.failed = false ∧ gb.isNull = false ∧
      (g.ProcessBufferNumOverprocessedFrames = 0 ∨ 0 < n) ∧
      g1.generatorCalls * g.BlockSize + g.ProcessBufferNumOverprocessedFrames
        = g.generatorCalls * g.BlockSize + n + g1.ProcessBufferNumOverprocessedFrames ∧
      (g.ProcessBufferNumOverprocessedFrames < g.BlockSize →
        g1.ProcessBufferNumOverprocessedFrames < g.BlockSize) ∧
      g1.releasedFrames = g.releasedFrames ++ [n] ∧
      g1.delivered.length = g.delivered.length + g.NumChannels * n) := by
  cases hnull : gb.isNull with
  | true => simp [Audio_Process, hnull, my_assert] at h
  | false =>
    cases hfail : gb.failed with
    | true =>
      left
      simp only [Audio_Process, hnull, hfail, if_true, my_assert] at h
      cases h
      exact ⟨rfl, rfl⟩
    | false =>
      right
      by_cases hpend : g.ProcessBufferNumOverprocessedFrames = 0 ∨ 0 < n
      · obtain ⟨g2, hrun, _, h2, h3, h4, h5⟩ :=
          Audio_Process_acquired osc gb hnull hfail n g hB hpend
        rw [hrun] at h
        cases h
        exact ⟨rfl, rfl, hpend, h2, h3, h4, h5⟩
      · have hK : g.ProcessBufferNumOverprocessedFrames ≠ 0 := fun h0 => hpend (Or.inl h0)
        have hn : n = 0 := by
          rcases Nat.eq_zero_or_pos n with h0 | h0
          · exact h0
          · exact absurd (Or.inr h0) hpend
        subst hn
        rw [Audio_Process_zero_pending osc gb hnull hfail g hK] at h
        cases h

/-- A cycle that asks for no more frames than are pending only drains: the
frames come from the start of `ProcessBuffer`, the generator is not called,
the memory is not written. -/
theorem Audio_Process_drain_only (osc : Oscillator φ α) (gb : GetBufferResult)
    (hnull : gb.isNull = false) (hfail : gb.failed = false) (n : Nat) (g : Audio φ α)
    (hn : n ≤ g.ProcessBufferNumOverprocessedFrames)
    (hpend : g.ProcessBufferNumOverprocessedFrames = 0 ∨ 0 < n) :
    Audio_Process osc gb n g = .ok { g with
      ProcessBufferNumOverprocessedFrames := g.ProcessBufferNumOverprocessedFrames - n
      delivered := g.delivered ++ (List.range (g.NumChannels * n)).map g.ProcessBufferMem
      releasedFrames := g.releasedFrames ++ [n] } := by
  have hd := drainOverprocessed_spec n g hpend
  rw [Nat.min_eq_right hn] at hd
  simp only [Audio_Process, hnull, hfail, hd, Bool.false_eq_true, if_false, Nat.sub_self,
    whileRemaining, Nat.lt_irrefl, my_assert, if_true, gt_iff_lt]

/-- A run of cycles from a state with less than a block pending, with a
non-zero `BlockSize`: the configuration is kept and less than a block is
pending at the end. -/
theorem runCycles_overprocessed_lt (osc : Oscillator φ α) :
    ∀ (reqs : List (GetBufferResult × Nat)) (g g1 : Audio φ α), 0 < g.BlockSize →
      g.ProcessBufferNumOverprocessedFrames < g.BlockSize →
      runCycles osc reqs g = .ok g1 →
      SameSetup g g1 ∧ g1.ProcessBufferNumOverprocessedFrames < g1.BlockSize := by
  intro reqs
  induction reqs with
  | nil =>
    intro g g1 _ hK h
    simp only [runCycles] at h
    cases h
    exact ⟨SameSetup.refl _, hK⟩
  | cons r rest ih =>
    intro g g1 hB hK h
    obtain ⟨gb, n⟩ := r
    simp only [runCycles] at h
    split at h
    · cases h
    · rename_i g2 hstep
      have hs := Audio_Process_sameSetup osc gb n g g2 hstep
      have hK2 : g2.ProcessBufferNumOverprocessedFrames < g2.BlockSize := by
        rw [hs.blockSize]
        rcases Audio_Process_sound osc gb n g g2 hB hstep with ⟨_, he⟩ | ⟨_, _, _, _, hlt, _⟩
        · rw [he]; exact hK
        · exact hlt hK
      obtain ⟨hs2, hlt2⟩ := ih g2 g1 (by rw [hs.blockSize]; exact hB) hK2 h
      exact ⟨hs.trans hs2, hlt2⟩

/-- A run of cycles, each with its buffer acquired: the frames released, the
generator calls and the pending frames add up. -/
theorem runCycles_requests_sound (osc : Oscillator φ α) :
    ∀ (ns : List Nat) (g g1 : Audio φ α), 0 < g.BlockSize →
      g.ProcessBufferNumOverprocessedFrames < g.BlockSize →
      runCycles osc (requests ns) g = .ok g1 →
      SameSetup g g1 ∧
      g1.ProcessBufferNumOverprocessedFrames < g.BlockSize ∧
      g1.generatorCalls * g.BlockSize + g.ProcessBufferNumOverprocessedFrames
        = g.generatorCalls * g.BlockSize + ns.sum + g1.ProcessBufferNumOverprocessedFrames ∧
      g1.releasedFrames = g.releasedFrames ++ ns ∧
      g1.delivered.length = g.delivered.length + g.NumChannels * ns.sum := by
  intro ns
  induction ns with
  | nil =>
    intro g g1 _ hK h
    simp only [requests, List.map_nil, runCycles] at h
    cases h
    simp [SameSetup.refl, hK]
  | cons n rest ih =>
    intro g g1 hB hK h
    simp only [requests, List.map_cons, runCycles] at h
    split at h
    · cases h
    · rename_i g2 hstep
      have hs := Audio_Process_sameSetup osc acquired n g g2 hstep
      rcases Audio_Process_sound osc acquired n g g2 hB hstep with
        ⟨hf, _⟩ | ⟨_, _, _, hcount, hlt, hrel, hlen⟩
      · simp [acquired] at hf
      · obtain ⟨hs2, hlt2, hcount2, hrel2, hlen2⟩ :=
          ih g2 g1 (by rw [hs.blockSize]; exact hB) (by rw [hs.blockSize]; exact hlt hK) h
        rw [hs.blockSize] at hlt2 hcount2
        rw [hs.numChannels] at hlen2
        refine ⟨hs.trans hs2, hlt2, ?_, ?_, ?_⟩
        · rw [List.sum_cons]; omega
        · rw [hrel2, hrel]; simp
        · rw [hlen2, hlen, List.sum_cons, Nat.mul_add]; omega

theorem reallocate_spec (env : StartEnv α) (g g1 : Audio φ α) (h : reallocate env g = .ok g1) :
    g1.ProcessBufferCap
      = max g.ProcessBufferCap (requiredCap g.NumChannels g.ProcessBufferMaxFrames g.BlockSize) ∧
    (requiredCap g.NumChannels g.ProcessBufferMaxFrames g.BlockSize ≤ g.ProcessBufferCap →
      g1 = g) ∧
    (g.ProcessBufferCap < requiredCap g.NumChannels g.ProcessBufferMaxFrames g.BlockSize →
      g1.allocations = g.allocations + 1 ∧ g1.ProcessBuffer = true ∧
      some g1.ProcessBufferMem = env.virtualAlloc) ∧
    g1.NumChannels = g.NumChannels ∧ g1.BlockSize = g.BlockSize ∧
    g1.ProcessBufferMaxFrames = g.ProcessBufferMaxFrames := by
  simp only [reallocate] at h
  split at h
  · rename_i hgt
    split at h
    · simp [my_assert] at h
    · rename_i mem hm
      cases h
      refine ⟨?_, fun hle => ?_, fun _ => ⟨rfl, rfl, hm.symm⟩, rfl, rfl, rfl⟩
      · exact (Nat.max_eq_right (Nat.le_of_lt hgt)).symm
      · omega
  · rename_i hle
    cases h
    refine ⟨?_, fun _ => rfl, fun hlt => ?_, rfl, rfl, rfl⟩
    · exact (Nat.max_eq_left (by omega)).symm
    · omega

/-- What `Audio_Start` leaves when it returns. -/
theorem Audio_Start_spec (env : StartEnv α) (g g1 : Audio φ α)
    (h : Audio_Start env g = .ok g1) :
    g1.ProcessBufferNumOverprocessedFrames = 0 ∧ g1.FlagExitAudioThread = 0 ∧
    0 < g1.BlockSize ∧ g1.BlockSize = g.BlockSize ∧ g1.NumChannels = g.NumChannels ∧
    g1.ProcessBufferMaxFrames = env.bufferSize ∧
    g1.ProcessBufferCap
      = max g.ProcessBufferCap (requiredCap g.NumChannels env.bufferSize g.BlockSize) ∧
    (requiredCap g.NumChannels env.bufferSize g.BlockSize ≤ g.ProcessBufferCap →
      g1.allocations = g.allocations ∧ g1.ProcessBuffer = g.ProcessBuffer ∧
      g1.ProcessBufferMem = g.ProcessBufferMem) ∧
    (g.ProcessBufferCap < requiredCap g.NumChannels env.bufferSize g.BlockSize →
      g1.allocations = g.allocations + 1 ∧ g1.ProcessBuffer = true ∧
      some g1.ProcessBufferMem = env.virtualAlloc) := by
  simp only [Audio_Start, my_assert_eq_ok] at h
  obtain ⟨_, hB0, _, _, _, _, _, _, _, h⟩ := h
  split at h
  · cases h
  · rename_i g2 hre
    rw [my_assert_eq_ok] at h
    obtain ⟨_, h⟩ := h
    cases h
    obtain ⟨hcap, hkeep, hnew, hC, hB, hM⟩ := reallocate_spec env _ g2 hre
    simp only [] at hcap hkeep hnew hC hB hM
    refine ⟨rfl, rfl, ?_, hB, hC, hM, hcap, fun hle => ?_, fun hlt => hnew hlt⟩
    · simp only [hB]; omega
    · rw [hkeep hle]; exact ⟨rfl, rfl, rfl⟩

/-- C2: a completed `Audio_Process` cycle keeps the overprocessed count below
`BlockSize` (for a non-zero `BlockSize`, any request, any answer of
`GetBuffer`); `Audio_Start` sets the count to 0 and leaves `BlockSize`
non-zero, so the count is below `BlockSize` after every completed cycle of a
session. -/
theorem overprocessed_lt_blockSize_after_cycle (osc : Oscillator φ α) (gb : GetBufferResult)
    (n : Nat) (g g1 : Audio φ α) (env : StartEnv α) (a a1 a2 : Audio φ α)
    (reqs : List (GetBufferResult × Nat))
    (hB : 0 < g.BlockSize) (hK : g.ProcessBufferNumOverprocessedFrames < g.BlockSize)
    (hcycle : Audio_Process osc gb n g = .ok g1)
    (hstart : Audio_Start env a = .ok a1) (hrun : runCycles osc reqs a1 = .ok a2) :
    (g1.ProcessBufferNumOverprocessedFrames < g1.BlockSize ∧ g1.BlockSize = g.BlockSize) ∧
    a1.ProcessBufferNumOverprocessedFrames = 0 ∧
    a2.ProcessBufferNumOverprocessedFrames < a2.BlockSize := by
  have h1 := runCycles_overprocessed_lt osc [(gb, n)] g g1 hB hK (by simp [runCycles, hcycle])
  obtain ⟨hK0, _, hBpos, _⟩ := Audio_Start_spec env a a1 hstart
  have h2 := runCycles_overprocessed_lt osc reqs a1 a2 hBpos (by omega) hrun
  exact ⟨⟨h1.2, h1.1.blockSize⟩, hK0, h2.2⟩

/-- C2 at a concrete session: two channels, blocks of 4 frames, a device buffer of
4 frames; a cycle of 3 frames with one frame pending, and the requests 3, 2, 4
after `Audio_Start`, which leave 3 frames pending. -/
theorem overprocessed_lt_blockSize_after_cycle_witness :
    Audio_Process counterOsc acquired 3 (startedWith 2 4 4 1)
      = .ok (stateOr (Audio_Process counterOsc acquired 3 (startedWith 2 4 4 1))
          (startedWith 2 4 4 1)) ∧
    Audio_Start (startEnv 4) (configured 2 4) = .ok (started 2 4 4) ∧
    countersOf (runCycles counterOsc (requests [3, 2, 4]) (started 2 4 4)) = some (3, 3) ∧
    (stateOr (runCycles counterOsc (requests [3, 2, 4]) (started 2 4 4))
      (started 2 4 4)).ProcessBufferNumOverprocessedFrames < 4 :=
  ⟨rfl, rfl, rfl,
    (overprocessed_lt_blockSize_after_cycle counterOsc acquired 3 (startedWith 2 4 4 1)
      (stateOr (Audio_Process counterOsc acquired 3 (startedWith 2 4 4 1))
        (startedWith 2 4 4 1))
      (startEnv 4) (configured 2 4) (started 2 4 4)
      (stateOr (runCycles counterOsc (requests [3, 2, 4]) (started 2 4 4)) (started 2 4 4))
      (requests [3, 2, 4]) (by decide) (by decide) rfl rfl rfl).2.2⟩

/-- C3: over cycles whose buffer is acquired and that complete, from a state
with nothing pending and a non-zero `BlockSize`, the generator calls made
times `BlockSize` are the frames requested plus the frames pending, so the
generator was called `ceil (sum / BlockSize)` times; with `BlockSize = 500`
the requests 300 and 700 leave 200 frames pending, then none, and call the
generator once each. -/
theorem generatorCalls_conserve_frames (osc : Oscillator φ α) (ns : List Nat)
    (g g1 b : Audio φ α)
    (hB : 0 < g.BlockSize) (hK : g.ProcessBufferNumOverprocessedFrames = 0)
    (hrun : runCycles osc (requests ns) g = .ok g1)
    (hb : b.BlockSize = 500) (hbK : b.ProcessBufferNumOverprocessedFrames = 0) :
    (g1.generatorCalls - g.generatorCalls) * g.BlockSize
      = ns.sum + g1.ProcessBufferNumOverprocessedFrames ∧
    g1.generatorCalls = g.generatorCalls + (ns.sum + g.BlockSize - 1) / g.BlockSize ∧
    ∃ b1 b2, Audio_Process osc acquired 300 b = .ok b1 ∧
      b1.ProcessBufferNumOverprocessedFrames = 200 ∧
      b1.generatorCalls = b.generatorCalls + 1 ∧
      Audio_Process osc acquired 700 b1 = .ok b2 ∧
      b2.ProcessBufferNumOverprocessedFrames = 0 ∧
      b2.generatorCalls = b.generatorCalls + 2 := by
  obtain ⟨_, hlt, hcount, _, _⟩ := runCycles_requests_sound osc ns g g1 hB (by omega) hrun
  rw [hK, Nat.add_zero] at hcount
  have hge : g.generatorCalls ≤ g1.generatorCalls := by
    rcases Nat.le_total g.generatorCalls g1.generatorCalls with h | h
    · exact h
    · have := Nat.mul_le_mul_right g.BlockSize h
      have h1 : g1.generatorCalls * g.BlockSize = g.generatorCalls * g.BlockSize := by omega
      exact Nat.le_of_eq (Nat.eq_of_mul_eq_mul_right hB h1).symm
  obtain ⟨d, hd⟩ := Nat.exists_eq_add_of_le hge
  have hdB : d * g.BlockSize = ns.sum + g1.ProcessBufferNumOverprocessedFrames := by
    rw [hd, Nat.add_mul] at hcount
    omega
  refine ⟨?_, ?_, ?_⟩
  · rw [hd, Nat.add_sub_cancel_left]; exact hdB
  · rw [hd]
    congr 1
    symm
    apply Nat.div_eq_of_lt_le
    · omega
    · rw [Nat.succ_mul]; omega
  · obtain ⟨b1, hb1, hs1, hc1, hl1, _, _⟩ :=
      Audio_Process_acquired osc acquired rfl rfl 300 b (by omega) (Or.inl hbK)
    have hB1 : b1.BlockSize = 500 := hs1.blockSize.trans hb
    rw [hb, hbK] at hc1 hl1
    have hl1' := hl1 (by omega)
    obtain ⟨b2, hb2, _, hc2, hl2, _, _⟩ :=
      Audio_Process_acquired osc acquired rfl rfl 700 b1 (by omega) (Or.inr (by omega))
    rw [hB1] at hc2 hl2
    have hl2' := hl2 hl1'
    exact ⟨b1, b2, hb1, by omega, by omega, hb2, by omega, by omega⟩

/-- C3 at a concrete session: blocks of 500 frames and the requests 300 and 700;
200 frames are pending after the first cycle, none after the second, and the
generator has been called twice. -/
theorem generatorCalls_conserve_frames_witness :
    runCycles counterOsc (requests [300, 700]) (started 2 500 1000)
      = .ok (stateOr (runCycles counterOsc (requests [300, 700]) (started 2 500 1000))
          (started 2 500 1000)) ∧
    countersOf (Audio_Process counterOsc acquired 300 (started 2 500 1000)) = some (200, 1) ∧
    countersOf (runCycles counterOsc (requests [300, 700]) (started 2 500 1000))
      = some (0, 2) ∧
    (stateOr (runCycles counterOsc (requests [300, 700]) (started 2 500 1000))
      (started 2 500 1000)).generatorCalls = 0 + (([300, 700] : List Nat).sum + 500 - 1) / 500 :=
  ⟨rfl, rfl, rfl,
    (generatorCalls_conserve_frames counterOsc [300, 700] (started 2 500 1000)
      (stateOr (runCycles counterOsc (requests [300, 700]) (started 2 500 1000))
        (started 2 500 1000))
      (started 2 500 1000) (by decide) rfl rfl rfl rfl).2.1⟩

/-- C5, the claim fails: with one frame pending (`BlockSize` 4) a request of
zero frames whose buffer is acquired stops at the assertion of line 168; so
does the request 0 after the request 3 in a session started with blocks of 4
frames, which leaves one frame pending. -/
theorem zero_request_with_pending_frames_asserts :
    Audio_Process counterOsc acquired 0 (startedWith 2 4 4 1) = .error (.assertion 168) ∧
    countersOf (runCycles counterOsc (requests [3]) (started 2 4 4)) = some (1, 1) ∧
    runCycles counterOsc (requests [3, 0]) (started 2 4 4) = .error (.assertion 168) := by
  refine ⟨rfl, by decide, rfl⟩

/-- C5, amended: with no frame pending, a request of zero frames whose buffer
is acquired returns without a failed assertion, does not call the generator
and changes nothing but the record of the `ReleaseBuffer(0)` call; and the
audio thread never makes the request: woken with no free frame
(`padding = ProcessBufferMaxFrames`) it goes back to the test of the loop with
the state unchanged, whatever is pending. -/
theorem zero_request_noop_when_nothing_pending (osc : Oscillator φ α) (g : Audio φ α)
    (w : Wake) (t : AudioThread φ α)
    (hK : g.ProcessBufferNumOverprocessedFrames = 0)
    (hpc : t.pc = .waiting) (hpad : w.padding = t.g.ProcessBufferMaxFrames) :
    Audio_Process osc acquired 0 g
      = .ok { g with releasedFrames := g.releasedFrames ++ [0] } ∧
    Audio_RunProcessThread_step osc w t = .ok { pc := .loopHead, g := t.g } := by
  constructor
  · rw [Audio_Process_drain_only osc acquired rfl rfl 0 g (Nat.zero_le _) (Or.inl hK)]
    simp
  · simp only [Audio_RunProcessThread_step, hpc, hpad]
    split
    · rfl
    · rw [my_assert_pos (Nat.le_refl _)]
      simp

/-- C5, amended, at a concrete session: a request of zero frames right after
`Audio_Start`, and the audio thread woken with the device buffer full while
one frame is pending. -/
theorem zero_request_noop_when_nothing_pending_witness :
    Audio_Process counterOsc acquired 0 (started 2 4 4)
      = .ok { started 2 4 4 with releasedFrames := [0] } ∧
    Audio_RunProcessThread_step counterOsc (wakeWith 4)
        { pc := .waiting, g := startedWith 2 4 4 1 }
      = .ok { pc := .loopHead, g := startedWith 2 4 4 1 } :=
  zero_request_noop_when_nothing_pending counterOsc (started 2 4 4) (wakeWith 4)
    { pc := .waiting, g := startedWith 2 4 4 1 } rfl rfl rfl

/-- A cycle that asks for exactly the `K` frames pending, `0 < K < BlockSize`,
with its buffer acquired: it returns, hands the device the `K` frames at the
start of `ProcessBuffer` (which are the frames pending only when no partial
drain came before), leaves no frame pending, and neither calls the generator
nor writes the memory. -/
theorem exact_drain (osc : Oscillator φ α) (g : Audio φ α)
    (hK : 0 < g.ProcessBufferNumOverprocessedFrames)
    (hKB : g.ProcessBufferNumOverprocessedFrames < g.BlockSize) :
    Audio_Process osc acquired g.ProcessBufferNumOverprocessedFrames g
      = .ok { g with
          ProcessBufferNumOverprocessedFrames := 0
          delivered := g.delivered ++
            (List.range (g.NumChannels * g.ProcessBufferNumOverprocessedFrames)).map
              g.ProcessBufferMem
          releasedFrames := g.releasedFrames ++ [g.ProcessBufferNumOverprocessedFrames] } := by
  have _ := hKB
  rw [Audio_Process_drain_only osc acquired rfl rfl _ g (Nat.le_refl _) (Or.inr hK),
    Nat.sub_self]

/-- Blocks of 4 frames: the request 1 leaves the frames 1, 2, 3 pending at the
start of `ProcessBuffer` and the request 3 delivers exactly these. -/
theorem exact_drain_witness :
    Audio_Process counterOsc acquired 3
        (stateOr (Audio_Process counterOsc acquired 1 (started 2 4 4)) (started 2 4 4))
      = .ok { stateOr (Audio_Process counterOsc acquired 1 (started 2 4 4)) (started 2 4 4) with
          ProcessBufferNumOverprocessedFrames := 0
          delivered := [0, 0] ++ [1, 1, 2, 2, 3, 3]
          releasedFrames := [1, 3] } :=
  exact_drain counterOsc
    (stateOr (Audio_Process counterOsc acquired 1 (started 2 4 4)) (started 2 4 4))
    (by decide) (by decide)

/-- C6, the code at the failing input: in a session with two channels and
blocks of 4 frames, the requests 1 and 1 are served from one generator block
(frames 0, 1, 2, 3) and deliver the frames 0 and 1, so 2 frames are pending,
the frames 2 and 3.  The cycle `Audio_Process(2)` ends with nothing pending
and without a generator call, but what it writes to the device region are the
two frames at the start of `ProcessBuffer`, the frames 1 and 2: frame 1 goes
out a second time and frame 3 never. -/
theorem exact_drain_after_partial_drain_repeats :
    countersOf (runCycles counterOsc (requests [1, 1]) (started 2 4 4)) = some (2, 1) ∧
    deliveredBy (runCycles counterOsc (requests [1, 1]) (started 2 4 4)) = some [0, 0, 1, 1] ∧
    generatorStream counterOsc 8 1 (started 2 4 4) = [0, 0, 1, 1] ++ [2, 2, 3, 3] ∧
    countersOf (Audio_Process counterOsc acquired 2
      (stateOr (runCycles counterOsc (requests [1, 1]) (started 2 4 4)) (started 2 4 4)))
      = some (0, 1) ∧
    deliveredBy (Audio_Process counterOsc acquired 2
      (stateOr (runCycles counterOsc (requests [1, 1]) (started 2 4 4)) (started 2 4 4)))
      = some ([0, 0, 1, 1] ++ [1, 1, 2, 2]) := by
  refine ⟨by decide, by decide, by decide, by decide, by decide⟩

/-- C7, the code at the failing input: when `GetBuffer` fails and leaves
`outBuffer` at `NULL`, `Audio_Process` stops at the assertion of line 152,
before the test of `hr`; only a failing `GetBuffer` that stored an address
reaches the `return` of line 154, with the state unchanged. -/
theorem failed_GetBuffer_hits_assertion (osc : Oscillator φ α) (n : Nat) (g : Audio φ α) :
    Audio_Process osc { failed := true, isNull := true } n g = .error (.assertion 152) ∧
    Audio_Process osc { failed := true, isNull := false } n g = .ok g := by
  constructor <;> simp [Audio_Process, my_assert]

theorem Audio_RunProcessThread_step_cap (osc : Oscillator φ α) (w : Wake)
    (t t1 : AudioThread φ α) (h : Audio_RunProcessThread_step osc w t = .ok t1) :
    t1.g.ProcessBufferCap = t.g.ProcessBufferCap := by
  simp only [Audio_RunProcessThread_step] at h
  split at h
  · split at h
    · cases h
    · rename_i g1 hp
      cases h
      exact (Audio_Process_sameSetup _ _ _ _ _ hp).processBufferCap
  · split at h <;> cases h <;> rfl
  · split at h
    · cases h
      rfl
    · rw [my_assert_eq_ok] at h
      obtain ⟨_, h⟩ := h
      split at h
      · cases h
        rfl
      · split at h
        · cases h
        · rename_i g1 hp
          cases h
          exact (Audio_Process_sameSetup _ _ _ _ _ hp).processBufferCap
  · cases h
    rfl

theorem Audio_RunProcessThread_run_cap (osc : Oscillator φ α) :
    ∀ (ws : List Wake) (t t1 : AudioThread φ α), Audio_RunProcessThread_run osc ws t = .ok t1 →
      t1.g.ProcessBufferCap = t.g.ProcessBufferCap := by
  intro ws
  induction ws with
  | nil =>
    intro t t1 h
    simp only [Audio_RunProcessThread_run] at h
    cases h
    rfl
  | cons w ws ih =>
    intro t t1 h
    simp only [Audio_RunProcessThread_run] at h
    split at h
    · cases h
    · rename_i t2 hstep
      exact (ih t2 t1 h).trans (Audio_RunProcessThread_step_cap osc w t t2 hstep)

/-- `Audio_Stop` does not write `ProcessBufferCap`, and neither does the audio
thread while it is waited for. -/
theorem Audio_Stop_cap (osc : Oscillator φ α) (w : Wake) (t t1 : AudioThread φ α)
    (h : Audio_Stop osc w t = .ok t1) : t1.g.ProcessBufferCap = t.g.ProcessBufferCap := by
  simp only [Audio_Stop] at h
  split at h
  · cases h
    rfl
  · simp only [my_assert_eq_ok] at h
    obtain ⟨_, _, _, h⟩ := h
    split at h
    · cases h
    · rename_i t2 hrun
      simp only [my_assert_eq_ok] at h
      obtain ⟨_, _, _, _, h⟩ := h
      cases h
      have hc := Audio_RunProcessThread_run_cap osc _ _ _ hrun
      exact hc

theorem runSession_cap (osc : Oscillator φ α) :
    ∀ (ops : List (SessionOp α)) (t t1 : AudioThread φ α), runSession osc ops t = .ok t1 →
      t.g.ProcessBufferCap ≤ t1.g.ProcessBufferCap := by
  intro ops
  induction ops with
  | nil =>
    intro t t1 h
    simp only [runSession] at h
    cases h
    exact Nat.le_refl _
  | cons op ops ih =>
    intro t t1 h
    cases op with
    | start env =>
      simp only [runSession] at h
      split at h
      · cases h
      · rename_i g1 hs
        have hcap := (Audio_Start_spec env t.g g1 hs).2.2.2.2.2.2.1
        have := ih _ t1 h
        simp only [] at this
        rw [hcap] at this
        exact Nat.le_trans (Nat.le_max_left _ _) this
    | stop w =>
      simp only [runSession] at h
      split at h
      · cases h
      · rename_i t2 hs
        have := ih t2 t1 h
        rw [Audio_Stop_cap osc w t t2 hs] at this
        exact this
    | step w =>
      simp only [runSession] at h
      split at h
      · cases h
      · rename_i t2 hs
        have := ih t2 t1 h
        rw [Audio_RunProcessThread_step_cap osc w t t2 hs] at this
        exact this

/-- C8: `Audio_Start` requires
`RoundUp (RoundUp (4 * C * M) 32 + RoundUp (4 * C * B) 32) 4096` bytes and
leaves `ProcessBufferCap` at the maximum of the capacity held and the
capacity required; it allocates (once) only when the required capacity
exceeds the capacity held and otherwise keeps the buffer; `Audio_Stop` leaves
`ProcessBufferCap` as it is; so over any session of starts, stops and steps of
the audio thread the capacity does not shrink. -/
theorem processBufferCap_high_water_mark (osc : Oscillator φ α) (env : StartEnv α)
    (g g1 : Audio φ α) (w : Wake) (t t1 : AudioThread φ α) (ops : List (SessionOp α))
    (s s1 : AudioThread φ α)
    (hstart : Audio_Start env g = .ok g1) (hstop : Audio_Stop osc w t = .ok t1)
    (hsession : runSession osc ops s = .ok s1) :
    g1.ProcessBufferCap = max g.ProcessBufferCap
      (RoundUp (RoundUp (4 * g.NumChannels * env.bufferSize) 32
        + RoundUp (4 * g.NumChannels * g.BlockSize) 32) 4096) ∧
    (RoundUp (RoundUp (4 * g.NumChannels * env.bufferSize) 32
        + RoundUp (4 * g.NumChannels * g.BlockSize) 32) 4096 ≤ g.ProcessBufferCap →
      g1.allocations = g.allocations ∧ g1.ProcessBuffer = g.ProcessBuffer ∧
      g1.ProcessBufferMem = g.ProcessBufferMem) ∧
    (g.ProcessBufferCap < RoundUp (RoundUp (4 * g.NumChannels * env.bufferSize) 32
        + RoundUp (4 * g.NumChannels * g.BlockSize) 32) 4096 →
      g1.allocations = g.allocations + 1) ∧
    t1.g.ProcessBufferCap = t.g.ProcessBufferCap ∧
    s.g.ProcessBufferCap ≤ s1.g.ProcessBufferCap := by
  obtain ⟨_, _, _, _, _, _, hcap, hkeep, hnew⟩ := Audio_Start_spec env g g1 hstart
  exact ⟨hcap, hkeep, fun h => (hnew h).1, Audio_Stop_cap osc w t t1 hstop,
    runSession_cap osc ops s s1 hsession⟩

/-- C8 at concrete sessions: a start with a device buffer of 100 frames, a stop
and a restart with 50 frames keep the 8192 bytes of the first start and
allocate once; a start with 1000 frames requires 12288 bytes, which a restart
with 50 frames (8192 bytes required) keeps. -/
theorem processBufferCap_high_water_mark_witness :
    Audio_Start (startEnv 100) (configured 2 512) = .ok (started 2 512 100) ∧
    (threadOr (runSession counterOsc
      [.start (startEnv 100), .step (wakeWith 0), .step (wakeWith 0), .stop (wakeWith 60)]
      (notStarted 2 512)) (notStarted 2 512)).g.ProcessBufferCap = 8192 ∧
    (threadOr (runSession counterOsc
      [.start (startEnv 100), .step (wakeWith 0), .step (wakeWith 0), .stop (wakeWith 60),
        .start (startEnv 50)]
      (notStarted 2 512)) (notStarted 2 512)).g.ProcessBufferCap = 8192 ∧
    (threadOr (runSession counterOsc
      [.start (startEnv 100), .step (wakeWith 0), .step (wakeWith 0), .stop (wakeWith 60),
        .start (startEnv 50)]
      (notStarted 2 512)) (notStarted 2 512)).g.allocations = 1 ∧
    requiredCap 2 1000 512 = 12288 ∧ requiredCap 2 50 512 = 8192 ∧
    (threadOr (runSession counterOsc
      [.start (startEnv 1000), .step (wakeWith 0), .step (wakeWith 0), .stop (wakeWith 900),
        .start (startEnv 50)]
      (notStarted 2 512)) (notStarted 2 512)).g.ProcessBufferCap = 12288 ∧
    (started 2 512 100).ProcessBufferCap
      ≤ (threadOr (runSession counterOsc [.stop (wakeWith 60), .start (startEnv 50)]
          { pc := .waiting, g := started 2 512 100 })
          (notStarted 2 512)).g.ProcessBufferCap :=
  ⟨rfl, rfl, rfl, rfl, rfl, rfl, rfl,
    (processBufferCap_high_water_mark counterOsc (startEnv 100) (configured 2 512)
      (started 2 512 100) (wakeWith 60) { pc := .waiting, g := started 2 512 100 }
      (threadOr (Audio_Stop counterOsc (wakeWith 60) { pc := .waiting, g := started 2 512 100 })
        (notStarted 2 512))
      [.stop (wakeWith 60), .start (startEnv 50)] { pc := .waiting, g := started 2 512 100 }
      (threadOr (runSession counterOsc [.stop (wakeWith 60), .start (startEnv 50)]
          { pc := .waiting, g := started 2 512 100 }) (notStarted 2 512))
      rfl rfl rfl).2.2.2.2⟩

theorem ite_lt_eq_min (r b : Nat) : (if r < b then r else b) = min r b := by
  split
  · rw [Nat.min_eq_left (by omega)]
  · rw [Nat.min_eq_right (by omega)]

theorem mul_add_mod_div {C : Nat} (i ch : Nat) (hch : ch < C) :
    (i * C + ch) % C = ch ∧ (i * C + ch) / C = i := by
  have hC : 0 < C := by omega
  constructor
  · rw [Nat.mul_comm, Nat.mul_add_mod, Nat.mod_eq_of_lt hch]
  · rw [Nat.mul_comm, Nat.mul_add_div hC, Nat.div_eq_of_lt hch, Nat.add_zero]

theorem le_outputPtr (o0 b ch : Nat) : o0 ≤ outputPtr o0 b ch := by
  unfold outputPtr
  split <;> omega

/-- C4, the claim fails: with two channels, blocks of 16 frames and a device
buffer of one frame the scratch starts at cell 8, inside the range the second
interleave loop writes; with one frame consumed, the overflow cell
`(11 - 1) * 2 + 0` receives 34, the sample of channel 1 and frame 10, and not
19, the sample of channel 0 and frame 11.  The same in the cycle
`Audio_Process(1)` of that session on a generated block, whose frame `i` has
the sample `i` in both channels: the cell receives 10 and not 11. -/
theorem interleave_overflow_clobbered :
    processBufferOffset narrowCycle.g / sizeofFloat = 8 ∧
    narrowCycle.g.ProcessBufferMem
      (outputPtr (processBufferOffset narrowCycle.g / sizeofFloat) 16 0 + 11) = 19 ∧
    (interleaveStep (outputPtr (processBufferOffset narrowCycle.g / sizeofFloat) 16)
      narrowCycle).g.ProcessBufferMem ((11 - 1) * 2 + 0) = 34 ∧
    (process_noninterleaved counterOsc (outputPtr 8 16) (started 2 16 1)).ProcessBufferMem
      (outputPtr 8 16 0 + 11) = 11 ∧
    (stateOr (Audio_Process counterOsc acquired 1 (started 2 16 1))
      (started 2 16 1)).ProcessBufferMem ((11 - 1) * 2 + 0) = 10 := by
  decide

/-- C4, amended: a pass that consumes `m = min remaining B` frames stores the
scratch sample of channel `ch` and frame `i` at index `i * C + ch` of the
device region for `i < m` (channel 0 first), the device region growing by
`C * m` samples, and leaves `B - m` frames pending; and when the bytes of the
overflow region that the pass writes end at or before the scratch,
`4 * C * (B - m) ≤ RoundUp (4 * C * M) 32`, it stores the scratch sample of
channel `ch` and frame `i` at cell `(i - m) * C + ch` of the overflow region
for `m ≤ i < B`, and writes no other cell. -/
theorem interleaveStep_order (c : Cycle φ α)
    (hC : c.g.NumChannels = 1 ∨ c.g.NumChannels = 2) :
    (∀ i ch, i < min c.remainingBlockFrames c.g.BlockSize → ch < c.g.NumChannels →
      (interleaveStep (outputPtr (processBufferOffset c.g / sizeofFloat) c.g.BlockSize)
          c).outBuffer[c.outBuffer.length + (i * c.g.NumChannels + ch)]?
        = some (c.g.ProcessBufferMem
            (outputPtr (processBufferOffset c.g / sizeofFloat) c.g.BlockSize ch + i))) ∧
    (interleaveStep (outputPtr (processBufferOffset c.g / sizeofFloat) c.g.BlockSize)
        c).outBuffer.take c.outBuffer.length = c.outBuffer ∧
    (interleaveStep (outputPtr (processBufferOffset c.g / sizeofFloat) c.g.BlockSize)
        c).outBuffer.length
      = c.outBuffer.length + c.g.NumChannels * min c.remainingBlockFrames c.g.BlockSize ∧
    (interleaveStep (outputPtr (processBufferOffset c.g / sizeofFloat) c.g.BlockSize)
        c).g.ProcessBufferNumOverprocessedFrames
      = c.g.BlockSize - min c.remainingBlockFrames c.g.BlockSize ∧
    (sizeofFloat * c.g.NumChannels
        * (c.g.BlockSize - min c.remainingBlockFrames c.g.BlockSize)
      ≤ processBufferOffset c.g →
      (∀ i ch, min c.remainingBlockFrames c.g.BlockSize ≤ i → i < c.g.BlockSize →
        ch < c.g.NumChannels →
        (interleaveStep (outputPtr (processBufferOffset c.g / sizeofFloat) c.g.BlockSize)
            c).g.ProcessBufferMem
            ((i - min c.remainingBlockFrames c.g.BlockSize) * c.g.NumChannels + ch)
          = c.g.ProcessBufferMem
              (outputPtr (processBufferOffset c.g / sizeofFloat) c.g.BlockSize ch + i)) ∧
      (∀ j, c.g.NumChannels * (c.g.BlockSize - min c.remainingBlockFrames c.g.BlockSize) ≤ j →
        (interleaveStep (outputPtr (processBufferOffset c.g / sizeofFloat) c.g.BlockSize)
            c).g.ProcessBufferMem j = c.g.ProcessBufferMem j)) := by
  have _ := hC
  generalize processBufferOffset c.g = off
  simp only [interleaveStep, ite_lt_eq_min, interleaveOut_eq]
  generalize min c.remainingBlockFrames c.g.BlockSize = m
  refine ⟨?_, ?_, ?_, trivial, ?_⟩
  · intro i ch hi hch
    obtain ⟨hmod, hdiv⟩ := mul_add_mod_div i ch hch
    have hlt : i * c.g.NumChannels + ch < c.g.NumChannels * m := by
      calc i * c.g.NumChannels + ch < i * c.g.NumChannels + c.g.NumChannels := by omega
        _ = (i + 1) * c.g.NumChannels := by rw [Nat.succ_mul]
        _ ≤ m * c.g.NumChannels := Nat.mul_le_mul_right _ hi
        _ = c.g.NumChannels * m := Nat.mul_comm _ _
    rw [List.getElem?_append_right (Nat.le_add_right _ _), Nat.add_sub_cancel_left,
      List.getElem?_map, List.getElem?_range hlt]
    simp only [Option.map_some', hmod, hdiv]
  · simp
  · simp
  · intro hfit
    have hcells : c.g.NumChannels * (c.g.BlockSize - m) ≤ off / sizeofFloat := by
      rw [Nat.le_div_iff_mul_le (by decide : 0 < sizeofFloat), Nat.mul_comm, ← Nat.mul_assoc]
      exact hfit
    unfold interleaveRemaining
    rw [forLoop_interleave_poke (outputPtr (off / sizeofFloat) c.g.BlockSize) c.g.NumChannels
      (c.g.BlockSize - m) m 0 c.g.ProcessBufferMem
      (fun ch1 i1 _ _ _ => by
        have := le_outputPtr (off / sizeofFloat) c.g.BlockSize ch1
        omega)]
    simp only [Nat.zero_add, Nat.sub_zero, Nat.zero_le, true_and]
    constructor
    · intro i ch hmi hiB hch
      obtain ⟨hmod, hdiv⟩ := mul_add_mod_div (i - m) ch hch
      have hlt : (i - m) * c.g.NumChannels + ch < c.g.NumChannels * (c.g.BlockSize - m) := by
        calc (i - m) * c.g.NumChannels + ch
              < (i - m) * c.g.NumChannels + c.g.NumChannels := by omega
          _ = (i - m + 1) * c.g.NumChannels := by rw [Nat.succ_mul]
          _ ≤ (c.g.BlockSize - m) * c.g.NumChannels := Nat.mul_le_mul_right _ (by omega)
          _ = c.g.NumChannels * (c.g.BlockSize - m) := Nat.mul_comm _ _
      simp only [hlt, if_true, hmod, hdiv]
      congr 2
      omega
    · intro j hj
      rw [if_neg (by omega)]

/-- C4, amended, at a concrete pass: the scratch `[10, 11, 12]`, `[20, 21, 22]`
with 3 frames consumed gives `[10, 20, 11, 21, 12, 22]`; with one frame
consumed the overflow region receives `[11, 21, 12, 22]`. -/
theorem interleaveStep_order_witness :
    (interleaveStep (outputPtr 8 3) (stereoCycle 3)).outBuffer = [10, 20, 11, 21, 12, 22] ∧
    (List.range 4).map
      (interleaveStep (outputPtr 8 3) (stereoCycle 1)).g.ProcessBufferMem = [11, 21, 12, 22] ∧
    (interleaveStep (outputPtr (processBufferOffset (stereoCycle 3).g / sizeofFloat)
        (stereoCycle 3).g.BlockSize) (stereoCycle 3)).outBuffer[0 + (2 * 2 + 1)]?
      = some ((stereoCycle 3).g.ProcessBufferMem (outputPtr 8 3 1 + 2)) ∧
    (interleaveStep (outputPtr (processBufferOffset (stereoCycle 1).g / sizeofFloat)
        (stereoCycle 1).g.BlockSize) (stereoCycle 1)).g.ProcessBufferMem ((2 - 1) * 2 + 1)
      = (stereoCycle 1).g.ProcessBufferMem (outputPtr 8 3 1 + 2) :=
  ⟨by decide, by decide,
    (interleaveStep_order (stereoCycle 3) (by decide)).1 2 1 (by decide) (by decide),
    ((interleaveStep_order (stereoCycle 1) (by decide)).2.2.2.2 (by decide)).1 2 1 (by decide)
      (by decide) (by decide)⟩

theorem le_RoundUp (v align : Nat) : v ≤ RoundUp v align := by
  unfold RoundUp
  exact Nat.le_add_right _ _

theorem RoundUp_lt_add (v align : Nat) (h : 0 < align) : RoundUp v align < v + align := by
  show v + (align - v % align) % align < v + align
  have := Nat.mod_lt (align - v % align) h
  omega

/-- The byte counts of `Audio_Start` fit in a 64 bit `SIZE_T`: with at most two
channels and `UINT32` frame counts the required capacity is below `2 ^ 64`. -/
theorem requiredCap_lt_two_pow_64 (C M B : Nat) (hC : C ≤ 2) (hM : M < 2 ^ 32)
    (hB : B < 2 ^ 32) : requiredCap C M B < 2 ^ 64 := by
  unfold requiredCap sizeofFloat
  have h1 := RoundUp_lt_add (4 * C * M) 32 (by decide)
  have h2 := RoundUp_lt_add (4 * C * B) 32 (by decide)
  have h3 := RoundUp_lt_add (RoundUp (4 * C * M) 32 + RoundUp (4 * C * B) 32) 4096 (by decide)
  have h4 : 4 * C * M ≤ 4 * 2 * M := Nat.mul_le_mul_right _ (Nat.mul_le_mul_left _ hC)
  have h5 : 4 * C * B ≤ 4 * 2 * B := Nat.mul_le_mul_right _ (Nat.mul_le_mul_left _ hC)
  simp only [] at h3 ⊢
  omega

/-- The reserve at the start of `ProcessBuffer` holds `BlockSize - 1` frames
whenever the device buffer does. -/
theorem reserve_fits_of_blockSize_le (g : Audio φ α)
    (h : g.BlockSize ≤ g.ProcessBufferMaxFrames + 1) :
    sizeofFloat * g.NumChannels * (g.BlockSize - 1) ≤ processBufferOffset g := by
  unfold processBufferOffset
  exact Nat.le_trans (Nat.mul_le_mul_left _ (by omega)) (le_RoundUp _ _)

/-- C10, the claim fails: with two channels, blocks of 512 frames and a device
buffer of 10 frames, `Audio_Start` returns and puts the scratch at byte 96; the
cycle `Audio_Process(1)` consumes one frame and writes the other 511 to the
overflow region, bytes 0 to 4088, across the start of the scratch. -/
theorem overflow_region_overlaps_scratch :
    Audio_Start (startEnv 10) (configured 2 512) = .ok (started 2 512 10) ∧
    processBufferOffset (started 2 512 10) = 96 ∧
    countersOf (Audio_Process counterOsc acquired 1 (started 2 512 10)) = some (512 - 1, 1) ∧
    processBufferOffset (started 2 512 10)
      < 4 * (started 2 512 10).NumChannels * (512 - 1) := by
  refine ⟨rfl, by decide, by decide, by decide⟩

/-- C10, amended: after `Audio_Start` and any cycles, the scratch
`[offset, offset + 4 * C * B)` at byte `offset = RoundUp (4 * C * M) 32` ends
at or before `ProcessBufferCap`; and when the reserve at the start of
`ProcessBuffer` holds `BlockSize - 1` frames,
`4 * C * (B - 1) ≤ RoundUp (4 * C * M) 32`, the bytes of the overflow region in
use, `[0, 4 * C * pending)`, and the bytes a pass that consumes at least one
frame writes, `[0, 4 * C * (B - consumed))`, end at or before the scratch. -/
theorem layout_disjoint_of_reserve_fits (osc : Oscillator φ α) (env : StartEnv α)
    (g g1 g2 : Audio φ α) (reqs : List (GetBufferResult × Nat))
    (hstart : Audio_Start env g = .ok g1) (hrun : runCycles osc reqs g1 = .ok g2) :
    processBufferOffset g2 = RoundUp (4 * g.NumChannels * env.bufferSize) 32 ∧
    processBufferOffset g2 + 4 * g2.NumChannels * g2.BlockSize ≤ g2.ProcessBufferCap ∧
    (4 * g1.NumChannels * (g1.BlockSize - 1) ≤ processBufferOffset g1 →
      4 * g2.NumChannels * g2.ProcessBufferNumOverprocessedFrames ≤ processBufferOffset g2 ∧
      ∀ consumed, 0 < consumed →
        4 * g2.NumChannels * (g2.BlockSize - consumed) ≤ processBufferOffset g2) := by
  obtain ⟨hK0, _, hBpos, hB, hC, hM, hcap, _, _⟩ := Audio_Start_spec env g g1 hstart
  obtain ⟨hs, hlt⟩ := runCycles_overprocessed_lt osc reqs g1 g2 hBpos (by omega) hrun
  have hoff : processBufferOffset g2 = processBufferOffset g1 := by
    unfold processBufferOffset
    rw [hs.numChannels, hs.processBufferMaxFrames]
  refine ⟨?_, ?_, fun hfit => ?_⟩
  · rw [hoff]
    unfold processBufferOffset sizeofFloat
    rw [hC, hM]
  · rw [hoff, hs.numChannels, hs.blockSize, hs.processBufferCap, hcap]
    have h1 := le_RoundUp (sizeofFloat * g1.NumChannels * g1.BlockSize) 32
    have h2 := le_RoundUp (RoundUp (sizeofFloat * g1.NumChannels * g1.ProcessBufferMaxFrames) 32
      + RoundUp (sizeofFloat * g1.NumChannels * g1.BlockSize) 32) 4096
    have h3 : requiredCap g1.NumChannels g1.ProcessBufferMaxFrames g1.BlockSize
        ≤ max g.ProcessBufferCap (requiredCap g.NumChannels env.bufferSize g.BlockSize) := by
      rw [hC, hM, hB]
      exact Nat.le_max_right _ _
    unfold processBufferOffset
    simp only [sizeofFloat, requiredCap] at h1 h2 h3 ⊢
    omega
  · have hmono : ∀ k, k ≤ g1.BlockSize - 1 →
        4 * g2.NumChannels * k ≤ processBufferOffset g2 := by
      intro k hk
      rw [hoff, hs.numChannels]
      exact Nat.le_trans (Nat.mul_le_mul_left _ hk) hfit
    exact ⟨hmono _ (by rw [← hs.blockSize]; omega),
      fun consumed hc => hmono _ (by rw [hs.blockSize]; omega)⟩

/-- C10, amended, at a concrete session: the configuration of `main` on a device
buffer of 1032 frames; the reserve holds 511 frames, and after the requests
1032, 441, 441 the 134 pending frames end before the scratch, which ends
before `ProcessBufferCap`. -/
theorem layout_disjoint_of_reserve_fits_witness :
    Audio_Start (startEnv 1032) (configured 2 512) = .ok (started 2 512 1032) ∧
    4 * 2 * (512 - 1) ≤ processBufferOffset (started 2 512 1032) ∧
    countersOf (runCycles counterOsc (requests [1032, 441, 441]) (started 2 512 1032))
      = some (134, 4) ∧
    processBufferOffset (started 2 512 1032) + 4 * 2 * 512
      ≤ (stateOr (runCycles counterOsc (requests [1032, 441, 441]) (started 2 512 1032))
          (started 2 512 1032)).ProcessBufferCap ∧
    4 * 2 * (stateOr (runCycles counterOsc (requests [1032, 441, 441]) (started 2 512 1032))
        (started 2 512 1032)).ProcessBufferNumOverprocessedFrames
      ≤ processBufferOffset (started 2 512 1032) :=
  ⟨rfl, by decide, by decide,
    (layout_disjoint_of_reserve_fits counterOsc (startEnv 1032) (configured 2 512)
      (started 2 512 1032)
      (stateOr (runCycles counterOsc (requests [1032, 441, 441]) (started 2 512 1032))
        (started 2 512 1032))
      (requests [1032, 441, 441]) rfl rfl).2.1,
    ((layout_disjoint_of_reserve_fits counterOsc (startEnv 1032) (configured 2 512)
      (started 2 512 1032)
      (stateOr (runCycles counterOsc (requests [1032, 441, 441]) (started 2 512 1032))
        (started 2 512 1032))
      (requests [1032, 441, 441]) rfl rfl).2.2 (by decide)).1⟩

theorem requiredCap_pos (C M B : Nat) (hC : 0 < C) (hB : 0 < B) : 0 < requiredCap C M B := by
  have h1 := le_RoundUp (sizeofFloat * C * B) 32
  have h2 := le_RoundUp (RoundUp (sizeofFloat * C * M) 32 + RoundUp (sizeofFloat * C * B) 32) 4096
  have h3 : 0 < sizeofFloat * C * B :=
    Nat.mul_pos (Nat.mul_pos (by decide) hC) hB
  simp only [requiredCap]
  omega

/-- `Audio_Start` from the state of `main`, every call into Windows succeeding:
the result is `started`. -/
theorem started_eq (C B M : Nat) (hC : 0 < C) (hB : 0 < B) :
    Audio_Start (startEnv M) (configured C B) = .ok (started C B M) := by
  have hpos := requiredCap_pos C M B hC hB
  have hB0 : B ≠ 0 := by omega
  simp [Audio_Start, my_assert, configured, startEnv, reallocate, started, hB0, hpos]

/-- The inner loop of `process_noninterleaved`: the sample is stored in the
cell of frame `i` of every channel below `n`. -/
theorem forLoop_poke_const (output : Nat → Nat) (i : Nat) (v : α) (n : Nat) (mem : Nat → α) :
    forLoop (fun ch m => poke m (output ch + i) v) n 0 mem
      = fun j => if ∃ ch, ch < n ∧ j = output ch + i then v else mem j := by
  induction n with
  | zero =>
    funext j
    simp [forLoop]
  | succ n ih =>
    rw [forLoop_succ_last, ih]
    funext j
    simp only [poke, Nat.zero_add]
    by_cases h1 : j = output n + i
    · have : ∃ ch, ch < n + 1 ∧ j = output ch + i := ⟨n, Nat.lt_succ_self n, h1⟩
      rw [if_pos h1, if_pos this]
    · by_cases h2 : ∃ ch, ch < n ∧ j = output ch + i
      · obtain ⟨ch, hch, hj⟩ := h2
        have : ∃ ch, ch < n + 1 ∧ j = output ch + i := ⟨ch, by omega, hj⟩
        have h3 : ∃ ch, ch < n ∧ j = output ch + i := ⟨ch, hch, hj⟩
        simp only [h1, if_false, this, h3, if_true]
      · have : ¬ ∃ ch, ch < n + 1 ∧ j = output ch + i := by
          rintro ⟨ch, hch, hj⟩
          rcases Nat.lt_succ_iff_lt_or_eq.mp hch with h | h
          · exact h2 ⟨ch, h, hj⟩
          · subst h; exact h1 hj
        simp only [h1, if_false, this, h2]

/-- The outer loop of `process_noninterleaved` after `n` frames: the phase has
advanced `n` times, the scratch cell of frame `i < n` of every channel holds
the sample of frame `i`, and no cell below the scratch is written. -/
theorem forLoop_generate (osc : Oscillator φ α) (o0 B C sr : Nat) (mem : Nat → α) (p : φ) :
    ∀ n, n ≤ B →
      (forLoop (fun i (mp : (Nat → α) × φ) =>
          (forLoop (fun ch m => poke m (outputPtr o0 B ch + i) (osc.sample mp.2)) C 0 mp.1,
            osc.advance sr mp.2)) n 0 (mem, p)).2 = (osc.advance sr)^[n] p ∧
      (∀ ch i, ch < C → i < n →
        (forLoop (fun i (mp : (Nat → α) × φ) =>
          (forLoop (fun ch m => poke m (outputPtr o0 B ch + i) (osc.sample mp.2)) C 0 mp.1,
            osc.advance sr mp.2)) n 0 (mem, p)).1 (outputPtr o0 B ch + i)
          = frameSample osc sr p i) ∧
      (∀ j, j < o0 →
        (forLoop (fun i (mp : (Nat → α) × φ) =>
          (forLoop (fun ch m => poke m (outputPtr o0 B ch + i) (osc.sample mp.2)) C 0 mp.1,
            osc.advance sr mp.2)) n 0 (mem, p)).1 j = mem j) := by
  intro n
  induction n with
  | zero =>
    intro _
    refine ⟨rfl, fun ch i _ hi => absurd hi (Nat.not_lt_zero _), fun j _ => rfl⟩
  | succ n ih =>
    intro hn
    obtain ⟨hp, hcell, hlow⟩ := ih (by omega)
    rw [forLoop_succ_last]
    generalize forLoop (fun i (mp : (Nat → α) × φ) =>
          (forLoop (fun ch m => poke m (outputPtr o0 B ch + i) (osc.sample mp.2)) C 0 mp.1,
            osc.advance sr mp.2)) n 0 (mem, p) = r at hp hcell hlow
    simp only [Nat.zero_add, forLoop_poke_const]
    refine ⟨?_, ?_, ?_⟩
    · rw [hp, Function.iterate_succ_apply']
    · intro ch i hch hi
      by_cases hin : i = n
      · subst hin
        have : ∃ ch1, ch1 < C ∧ outputPtr o0 B ch + i = outputPtr o0 B ch1 + i := ⟨ch, hch, rfl⟩
        simp only [this, if_true, hp, frameSample]
      · have hlt : i < n := by omega
        have : ¬ ∃ ch1, ch1 < C ∧ outputPtr o0 B ch + i = outputPtr o0 B ch1 + n := by
          rintro ⟨ch1, _, he⟩
          unfold outputPtr at he
          split at he <;> split at he <;> omega
        simp only [this, if_false]
        exact hcell ch i hch hlt
    · intro j hj
      have : ¬ ∃ ch1, ch1 < C ∧ j = outputPtr o0 B ch1 + n := by
        rintro ⟨ch1, _, he⟩
        have := le_outputPtr o0 B ch1
        omega
      simp only [this, if_false]
      exact hlow j hj

/-- One call of the generator: the phase advances by a block, the scratch
holds the samples of the block's frames in every channel, the cells below the
scratch and everything else are as before. -/
theorem process_noninterleaved_spec (osc : Oscillator φ α) (o0 : Nat) (g : Audio φ α) :
    (process_noninterleaved osc (outputPtr o0 g.BlockSize) g).phase
      = (osc.advance g.SampleRate)^[g.BlockSize] g.phase ∧
    (∀ ch i, ch < g.NumChannels → i < g.BlockSize →
      (process_noninterleaved osc (outputPtr o0 g.BlockSize) g).ProcessBufferMem
          (outputPtr o0 g.BlockSize ch + i)
        = frameSample osc g.SampleRate g.phase i) ∧
    (∀ j, j < o0 →
      (process_noninterleaved osc (outputPtr o0 g.BlockSize) g).ProcessBufferMem j
        = g.ProcessBufferMem j) := by
  have h := forLoop_generate osc o0 g.BlockSize g.NumChannels g.SampleRate g.ProcessBufferMem
    g.phase g.BlockSize (Nat.le_refl _)
  exact h

theorem frameSample_iterate (osc : Oscillator φ α) (sr : Nat) (p0 : φ) (a t : Nat) :
    frameSample osc sr ((osc.advance sr)^[a] p0) t = frameSample osc sr p0 (a + t) := by
  unfold frameSample
  rw [Nat.add_comm a t, Function.iterate_add_apply]

/-- The cells of the frames `start .. start + (w + m)` are those of the first
`w` frames followed by those of the next `m`. -/
theorem streamCells_append (osc : Oscillator φ α) (sr C : Nat) (p0 : φ) (start w m : Nat) :
    streamCells osc sr C p0 start (w + m)
      = streamCells osc sr C p0 start w ++ streamCells osc sr C p0 (start + w) m := by
  unfold streamCells
  rw [Nat.mul_add, List.range_add, List.map_append, List.map_map]
  congr 1
  apply List.map_congr_left
  intro x hx
  rcases Nat.eq_zero_or_pos C with hC | hC
  · subst hC
    simp at hx
  · simp only [Function.comp, Nat.mul_add_div hC, Nat.add_assoc]

/-- One pass of the `while` loop keeps the locals in step with the stream,
when nothing is pending and the reserve holds what the pass leaves. -/
theorem interleaveStep_inSync (osc : Oscillator φ α) (p0 : φ) (T w o0 : Nat) (c : Cycle φ α)
    (hK : c.g.ProcessBufferNumOverprocessedFrames = 0)
    (hfit : c.g.NumChannels
      * (c.g.BlockSize - min c.remainingBlockFrames c.g.BlockSize) ≤ o0)
    (hsync : CycleInSync osc p0 T w c) :
    CycleInSync osc p0 T (w + min c.remainingBlockFrames c.g.BlockSize)
      (interleaveStep (outputPtr o0 c.g.BlockSize)
        { c with g := process_noninterleaved osc (outputPtr o0 c.g.BlockSize) c.g }) := by
  obtain ⟨hphase, _, hout⟩ := hsync
  rw [hK, Nat.add_zero] at hphase
  obtain ⟨hgp, hgcell, _⟩ := process_noninterleaved_spec osc o0 c.g
  have hmB : min c.remainingBlockFrames c.g.BlockSize ≤ c.g.BlockSize := Nat.min_le_right _ _
  have hcfg : (process_noninterleaved osc (outputPtr o0 c.g.BlockSize) c.g).NumChannels
      = c.g.NumChannels ∧
      (process_noninterleaved osc (outputPtr o0 c.g.BlockSize) c.g).BlockSize = c.g.BlockSize ∧
      (process_noninterleaved osc (outputPtr o0 c.g.BlockSize) c.g).SampleRate
        = c.g.SampleRate := ⟨rfl, rfl, rfl⟩
  obtain ⟨hC1, hB1, hS1⟩ := hcfg
  generalize process_noninterleaved osc (outputPtr o0 c.g.BlockSize) c.g = g1 at *
  unfold CycleInSync
  simp only [interleaveStep, ite_lt_eq_min, interleaveOut_eq, hC1, hB1, hS1]
  generalize min c.remainingBlockFrames c.g.BlockSize = m at *
  refine ⟨?_, ?_, ?_⟩
  · rw [hgp, hphase, ← Function.iterate_add_apply]
    have e : c.g.BlockSize + (T + w) = T + (w + m) + (c.g.BlockSize - m) := by omega
    rw [e]
  · intro j hj
    unfold interleaveRemaining
    rw [forLoop_interleave_poke (outputPtr o0 c.g.BlockSize) c.g.NumChannels
      (c.g.BlockSize - m) m 0 g1.ProcessBufferMem
      (fun ch1 i1 _ _ _ => by
        have := le_outputPtr o0 c.g.BlockSize ch1
        omega)]
    simp only [Nat.zero_add, Nat.sub_zero, Nat.zero_le, true_and, hj, if_true]
    have hC : 0 < c.g.NumChannels := by
      rcases Nat.eq_zero_or_pos c.g.NumChannels with h | h
      · rw [h] at hj; simp at hj
      · exact h
    have hdiv : j / c.g.NumChannels < c.g.BlockSize - m := by
      rw [Nat.div_lt_iff_lt_mul hC, Nat.mul_comm]; exact hj
    rw [hgcell _ _ (Nat.mod_lt _ hC) (by omega), hphase, frameSample_iterate]
    congr 1
    omega
  · rw [streamCells_append, hout]
    congr 1
    unfold streamCells
    apply List.map_congr_left
    intro j hj
    have hjlt : j < c.g.NumChannels * m := List.mem_range.mp hj
    have hC : 0 < c.g.NumChannels := by
      rcases Nat.eq_zero_or_pos c.g.NumChannels with h | h
      · rw [h] at hjlt; simp at hjlt
      · exact h
    have hdiv : j / c.g.NumChannels < m := by
      rw [Nat.div_lt_iff_lt_mul hC, Nat.mul_comm]; exact hjlt
    rw [hgcell _ _ (Nat.mod_lt _ hC) (by omega), hphase, frameSample_iterate]

/-- The `while` loop keeps the locals in step with the stream: when it
returns, the device region holds the frames of the whole request. -/
theorem whileRemaining_inSync (osc : Oscillator φ α) (p0 : φ) (T bs o0 : Nat) :
    ∀ (fuel : Nat) (c c1 : Cycle φ α) (w : Nat), 0 < c.g.BlockSize →
      c.g.NumChannels * (c.g.BlockSize - 1) ≤ o0 →
      (c.remainingBlockFrames = 0 ∨ c.g.ProcessBufferNumOverprocessedFrames = 0) →
      CycleInSync osc p0 T w c →
      whileRemaining osc bs o0 fuel c = .ok c1 →
      CycleInSync osc p0 T (w + c.remainingBlockFrames) c1 := by
  intro fuel
  induction fuel with
  | zero =>
    intro c c1 w _ _ _ hsync h
    unfold whileRemaining at h
    split at h
    · cases h
    · rename_i h0
      cases h
      have : c.remainingBlockFrames = 0 := by omega
      rw [this, Nat.add_zero]
      exact hsync
  | succ fuel ih =>
    intro c c1 w hB hfit hor hsync h
    unfold whileRemaining at h
    split at h
    · rename_i hr
      split at h
      · cases h
      · rename_i c2 hstep
        have hK : c.g.ProcessBufferNumOverprocessedFrames = 0 := by
          rcases hor with h0 | h0
          · omega
          · exact h0
        simp only [generateStep, my_assert_eq_ok] at hstep
        obtain ⟨_, _, hc2⟩ := hstep
        have hc2' := Except.ok.inj hc2
        obtain ⟨hs, hrem, hov, _, _, _, _⟩ :=
          interleaveStep_counters osc (outputPtr o0 c.g.BlockSize) c
        simp only [ite_lt_eq_min] at hrem hov
        have hm1 : 0 < min c.remainingBlockFrames c.g.BlockSize := by
          rw [Nat.lt_min]; exact ⟨hr, hB⟩
        have hmr : min c.remainingBlockFrames c.g.BlockSize ≤ c.remainingBlockFrames :=
          Nat.min_le_left _ _
        have hmor : min c.remainingBlockFrames c.g.BlockSize = c.remainingBlockFrames ∨
            min c.remainingBlockFrames c.g.BlockSize = c.g.BlockSize := by
          rcases Nat.le_total c.remainingBlockFrames c.g.BlockSize with h1 | h1
          · left; exact Nat.min_eq_left h1
          · right; exact Nat.min_eq_right h1
        have hsync2 := interleaveStep_inSync osc p0 T w o0 c hK
          (Nat.le_trans (Nat.mul_le_mul_left _ (by omega)) hfit) hsync
        rw [hc2'] at hs hrem hov hsync2
        have := ih c2 c1 (w + min c.remainingBlockFrames c.g.BlockSize)
          (by rw [hs.blockSize]; exact hB)
          (by rw [hs.blockSize, hs.numChannels]; exact hfit)
          (by rw [hrem, hov]; omega) hsync2 h
        rw [hrem] at this
        have e : w + min c.remainingBlockFrames c.g.BlockSize
            + (c.remainingBlockFrames - min c.remainingBlockFrames c.g.BlockSize)
            = w + c.remainingBlockFrames := by omega
        rw [e] at this
        exact this
    · rename_i h0
      cases h
      have : c.remainingBlockFrames = 0 := by omega
      rw [this, Nat.add_zero]
      exact hsync

/-- A cycle that asks for at least the frames pending keeps the state in step
with the stream: the device receives the next `n` frames. -/
theorem Audio_Process_inSync (osc : Oscillator φ α) (p0 : φ) (d0 : List α) (T n : Nat)
    (g g1 : Audio φ α) (hB : 0 < g.BlockSize)
    (hfit : g.NumChannels * (g.BlockSize - 1) ≤ processBufferOffset g / sizeofFloat)
    (hcover : g.ProcessBufferNumOverprocessedFrames ≤ n)
    (hsync : InSync osc p0 d0 T g)
    (h : Audio_Process osc acquired n g = .ok g1) :
    InSync osc p0 d0 (T + n) g1 := by
  obtain ⟨hphase, hmem, hdel⟩ := hsync
  have hpend : g.ProcessBufferNumOverprocessedFrames = 0 ∨ 0 < n := by omega
  have hd := drainOverprocessed_spec n g hpend
  rw [Nat.min_eq_left hcover, Nat.sub_self] at hd
  simp only [Audio_Process, acquired, my_assert, hd, if_true, Bool.false_eq_true, if_false]
    at h
  split at h
  · cases h
  · rename_i c2 hrun
    have h' := Except.ok.inj h
    have hc0 : CycleInSync osc p0 T g.ProcessBufferNumOverprocessedFrames
        { g := { g with ProcessBufferNumOverprocessedFrames := 0 }
          remainingBlockFrames := n - g.ProcessBufferNumOverprocessedFrames
          outBuffer := (List.range
            (g.NumChannels * g.ProcessBufferNumOverprocessedFrames)).map g.ProcessBufferMem } := by
      refine ⟨?_, ?_, ?_⟩
      · simp only [Nat.add_zero]
        exact hphase
      · intro j hj
        simp at hj
      · simp only [streamCells]
        apply List.map_congr_left
        intro j hj
        exact hmem j (List.mem_range.mp hj)
    have hs := whileRemaining_sameSetup osc _ _ _ _ _ hrun
    have hdel2 : c2.g.delivered = g.delivered := by
      obtain ⟨c3, hrun3, _, _, _, _, hd3, _⟩ :=
        whileRemaining_spec osc n (processBufferOffset g / sizeofFloat)
          (n - g.ProcessBufferNumOverprocessedFrames)
          { g := { g with ProcessBufferNumOverprocessedFrames := 0 }
            remainingBlockFrames := n - g.ProcessBufferNumOverprocessedFrames
            outBuffer := (List.range
              (g.NumChannels * g.ProcessBufferNumOverprocessedFrames)).map g.ProcessBufferMem }
          hB (Nat.le_refl _) (Nat.sub_le _ _) (Or.inr rfl)
      have hrun' : whileRemaining osc n (processBufferOffset g / sizeofFloat)
          (n - g.ProcessBufferNumOverprocessedFrames)
          { g := { g with ProcessBufferNumOverprocessedFrames := 0 }
            remainingBlockFrames := n - g.ProcessBufferNumOverprocessedFrames
            outBuffer := (List.range
              (g.NumChannels * g.ProcessBufferNumOverprocessedFrames)).map g.ProcessBufferMem }
          = .ok c2 := hrun
      rw [hrun3] at hrun'
      rw [← Except.ok.inj hrun']
      exact hd3
    obtain ⟨hp2, hm2, ho2⟩ := whileRemaining_inSync osc p0 T n
      (processBufferOffset g / sizeofFloat) _ _ c2 g.ProcessBufferNumOverprocessedFrames
      hB hfit (Or.inr rfl) hc0 hrun
    have e : g.ProcessBufferNumOverprocessedFrames + (n - g.ProcessBufferNumOverprocessedFrames)
        = n := by omega
    simp only [e] at hp2 hm2 ho2
    rw [← h']
    refine ⟨hp2, hm2, ?_⟩
    simp only [hdel2, hdel, ho2, hs.sampleRate, hs.numChannels, List.append_assoc]
    rw [streamCells_append, Nat.zero_add]

/-- The pending count that the counters of a cycle force. -/
theorem pendingAfter_eq (B K N K1 a b : Nat) (hB : 0 < B) (hKN : K ≤ N) (hK1 : K1 < B)
    (h : a * B + K = b * B + N + K1) : K1 = pendingAfter B K N := by
  unfold pendingAfter
  have hq : (N - K) % B < B := Nat.mod_lt _ hB
  have hsum : ((N - K) % B + K1) % B = 0 := by
    have h1 : a * B = B * b + ((N - K) + K1) := by
      rw [Nat.mul_comm B b]; omega
    have h2 : (a * B) % B = 0 := Nat.mul_mod_left a B
    rw [h1, Nat.mul_add_mod, Nat.add_mod, Nat.mod_eq_of_lt hK1] at h2
    exact h2
  generalize (N - K) % B = q at hq hsum
  rcases Nat.lt_or_ge (q + K1) B with hlt | hge
  · rw [Nat.mod_eq_of_lt hlt] at hsum
    have hq0 : q = 0 := by omega
    have hK0 : K1 = 0 := by omega
    rw [hq0, hK0, Nat.sub_zero, Nat.mod_self]
  · have hlt2 : q + K1 - B < B := by omega
    rw [Nat.mod_eq_sub_mod hge, Nat.mod_eq_of_lt hlt2] at hsum
    have hK : K1 = B - q := by omega
    have hqpos : 0 < q := by omega
    rw [hK, Nat.mod_eq_of_lt (by omega)]

/-- A run of cycles each asking for at least the frames pending: the run
returns and the device receives the next frames of the stream, in order. -/
theorem runCycles_inSync (osc : Oscillator φ α) (p0 : φ) (d0 : List α) :
    ∀ (ns : List Nat) (T : Nat) (g : Audio φ α), 0 < g.BlockSize →
      g.ProcessBufferNumOverprocessedFrames < g.BlockSize →
      g.NumChannels * (g.BlockSize - 1) ≤ processBufferOffset g / sizeofFloat →
      Covering g.BlockSize g.ProcessBufferNumOverprocessedFrames ns →
      InSync osc p0 d0 T g →
      ∃ g1, runCycles osc (requests ns) g = .ok g1 ∧ InSync osc p0 d0 (T + ns.sum) g1 ∧
        SameSetup g g1 := by
  intro ns
  induction ns with
  | nil =>
    intro T g _ _ _ _ hsync
    exact ⟨g, rfl, by simpa using hsync, SameSetup.refl _⟩
  | cons n rest ih =>
    intro T g hB hK hfit hcov hsync
    obtain ⟨hKn, hcov2⟩ := hcov
    obtain ⟨g2, hstep, hs, hcount, hlt, _, _⟩ :=
      Audio_Process_acquired osc acquired rfl rfl n g hB (by omega)
    have hsync2 := Audio_Process_inSync osc p0 d0 T n g g2 hB hfit hKn hsync hstep
    have hK2 := pendingAfter_eq g.BlockSize g.ProcessBufferNumOverprocessedFrames n
      g2.ProcessBufferNumOverprocessedFrames g2.generatorCalls g.generatorCalls hB hKn
      (hlt hK) hcount
    have hoff : processBufferOffset g2 = processBufferOffset g := by
      unfold processBufferOffset
      rw [hs.numChannels, hs.processBufferMaxFrames]
    obtain ⟨g1, hrun, hsync1, hs1⟩ := ih (T + n) g2 (by rw [hs.blockSize]; exact hB)
      (by rw [hs.blockSize]; exact hlt hK)
      (by rw [hs.blockSize, hs.numChannels, hoff]; exact hfit)
      (by rw [hs.blockSize, hK2]; exact hcov2) hsync2
    refine ⟨g1, ?_, ?_, hs.trans hs1⟩
    · simp only [requests, List.map_cons, runCycles]
      rw [hstep]
      exact hrun
    · rw [List.sum_cons, ← Nat.add_assoc]
      exact hsync1

/-- The stream of the specification in closed form: `k` blocks are the cells
of the frames `0 .. k * BlockSize`. -/
theorem generatorStream_eq (osc : Oscillator φ α) (o0 : Nat) :
    ∀ (k : Nat) (g : Audio φ α), generatorStream osc o0 k g
      = streamCells osc g.SampleRate g.NumChannels g.phase 0 (k * g.BlockSize) := by
  intro k
  induction k with
  | zero =>
    intro g
    simp [generatorStream, streamCells]
  | succ k ih =>
    intro g
    obtain ⟨hgp, hgcell, _⟩ := process_noninterleaved_spec osc o0 g
    have hcfg : (process_noninterleaved osc (outputPtr o0 g.BlockSize) g).NumChannels
        = g.NumChannels ∧
        (process_noninterleaved osc (outputPtr o0 g.BlockSize) g).BlockSize = g.BlockSize ∧
        (process_noninterleaved osc (outputPtr o0 g.BlockSize) g).SampleRate
          = g.SampleRate := ⟨rfl, rfl, rfl⟩
    obtain ⟨hC1, hB1, hS1⟩ := hcfg
    simp only [generatorStream, interleaveOut_eq, List.nil_append]
    rw [ih, hC1, hB1, hS1, hgp, Nat.succ_mul, Nat.add_comm (k * g.BlockSize) g.BlockSize,
      streamCells_append, Nat.zero_add]
    congr 1
    · unfold streamCells
      apply List.map_congr_left
      intro j hj
      have hjlt : j < g.NumChannels * g.BlockSize := List.mem_range.mp hj
      have hC : 0 < g.NumChannels := by
        rcases Nat.eq_zero_or_pos g.NumChannels with h | h
        · rw [h] at hjlt; simp at hjlt
        · exact h
      have hdiv : j / g.NumChannels < g.BlockSize := by
        rw [Nat.div_lt_iff_lt_mul hC, Nat.mul_comm]; exact hjlt
      rw [hgcell _ _ (Nat.mod_lt _ hC) hdiv, Nat.zero_add]
    · unfold streamCells
      apply List.map_congr_left
      intro j _
      rw [frameSample_iterate, Nat.zero_add]

theorem streamCells_take (osc : Oscillator φ α) (sr C : Nat) (p0 : φ) (n m : Nat)
    (h : n ≤ m) :
    (streamCells osc sr C p0 0 m).take (C * n) = streamCells osc sr C p0 0 n := by
  unfold streamCells
  rw [← List.map_take, List.take_range, Nat.min_eq_left (Nat.mul_le_mul_left _ h)]

/-- What the block adapter does right.  From a state with nothing pending, a
non-zero `BlockSize` and a reserve that holds `BlockSize - 1` frames, for any
requests that each ask for at least the frames pending when they are made
(`Covering`): every cycle returns, and the samples handed to the device are
exactly the first `sum` frames of the stream of interleaved generator blocks.
The requests 1, 1, 1 with blocks of 4 frames are not of this kind. -/
theorem rechunking_when_requests_cover_pending (osc : Oscillator φ α) (ns : List Nat)
    (g : Audio φ α) (k : Nat)
    (hB : 0 < g.BlockSize) (hK : g.ProcessBufferNumOverprocessedFrames = 0)
    (hfit : sizeofFloat * g.NumChannels * (g.BlockSize - 1) ≤ processBufferOffset g)
    (hcov : Covering g.BlockSize 0 ns) (hk : ns.sum ≤ k * g.BlockSize) :
    ∃ g1, runCycles osc (requests ns) g = .ok g1 ∧
      g1.delivered = g.delivered
        ++ (generatorStream osc (processBufferOffset g / sizeofFloat) k g).take
            (g.NumChannels * ns.sum) ∧
      g1.releasedFrames = g.releasedFrames ++ ns := by
  have hcells : g.NumChannels * (g.BlockSize - 1) ≤ processBufferOffset g / sizeofFloat := by
    rw [Nat.le_div_iff_mul_le (by decide : 0 < sizeofFloat), Nat.mul_comm, ← Nat.mul_assoc]
    exact hfit
  have hsync : InSync osc g.phase g.delivered 0 g := by
    refine ⟨?_, ?_, ?_⟩
    · rw [hK]; rfl
    · intro j hj
      rw [hK] at hj
      simp at hj
    · simp [streamCells]
  obtain ⟨g1, hrun, ⟨_, _, hdel⟩, hs⟩ := runCycles_inSync osc g.phase g.delivered ns 0 g hB
    (by omega) hcells (by rw [hK]; exact hcov) hsync
  obtain ⟨_, _, _, hrel, _⟩ := runCycles_requests_sound osc ns g g1 hB (by omega) hrun
  refine ⟨g1, hrun, ?_, hrel⟩
  rw [hdel, hs.sampleRate, hs.numChannels, Nat.zero_add, generatorStream_eq,
    streamCells_take osc _ _ _ _ _ hk]

/-- The requests 3, 2, 7, 4 with blocks of 4 frames each cover what is pending
(0, 1, 3, 0 frames): the device receives the first 16 frames of the stream. -/
theorem rechunking_when_requests_cover_pending_example :
    Covering 4 0 [3, 2, 7, 4] ∧
    ∃ g1, runCycles counterOsc (requests [3, 2, 7, 4]) (started 2 4 4) = .ok g1 ∧
      g1.delivered = (started 2 4 4).delivered
        ++ (generatorStream counterOsc (processBufferOffset (started 2 4 4) / sizeofFloat) 4
            (started 2 4 4)).take (2 * 16) ∧
      g1.releasedFrames = [] ++ [3, 2, 7, 4] :=
  ⟨by decide,
    rechunking_when_requests_cover_pending counterOsc [3, 2, 7, 4] (started 2 4 4) 4
      (by decide) rfl (by decide) (by decide) (by decide)⟩

theorem generateStep_outBuffer (osc : Oscillator φ α) (bs o0 : Nat) (c c1 : Cycle φ α)
    (h : generateStep osc bs o0 c = .ok c1) : ∃ rest, c1.outBuffer = c.outBuffer ++ rest := by
  simp only [generateStep, my_assert_eq_ok] at h
  obtain ⟨_, _, h⟩ := h
  cases h
  simp only [interleaveStep, interleaveOut_eq]
  exact ⟨_, rfl⟩

/-- The `while` loop only appends to the device region. -/
theorem whileRemaining_outBuffer (osc : Oscillator φ α) (bs o0 : Nat) :
    ∀ (fuel : Nat) (c c1 : Cycle φ α), whileRemaining osc bs o0 fuel c = .ok c1 →
      ∃ rest, c1.outBuffer = c.outBuffer ++ rest := by
  intro fuel
  induction fuel with
  | zero =>
    intro c c1 h
    unfold whileRemaining at h
    split at h
    · cases h
    · cases h
      exact ⟨[], by simp⟩
  | succ fuel ih =>
    intro c c1 h
    unfold whileRemaining at h
    split at h
    · split at h
      · cases h
      · rename_i c2 hstep
        obtain ⟨r1, h1⟩ := generateStep_outBuffer osc bs o0 c c2 hstep
        obtain ⟨r2, h2⟩ := ih c2 c1 h
        exact ⟨r1 ++ r2, by rw [h2, h1, List.append_assoc]⟩
    · cases h
      exact ⟨[], by simp⟩

/-- Every cycle starts the device region with the cells at the start of
`ProcessBuffer`: `min pending n` frames from cell 0. -/
theorem Audio_Process_starts_at_cell_zero (osc : Oscillator φ α) (n : Nat) (g : Audio φ α)
    (hB : 0 < g.BlockSize) (hpend : g.ProcessBufferNumOverprocessedFrames = 0 ∨ 0 < n) :
    ∃ g1 rest, Audio_Process osc acquired n g = .ok g1 ∧
      g1.delivered = g.delivered
        ++ (List.range (g.NumChannels * min g.ProcessBufferNumOverprocessedFrames n)).map
            g.ProcessBufferMem
        ++ rest := by
  obtain ⟨g1, hrun, _⟩ := Audio_Process_acquired osc acquired rfl rfl n g hB hpend
  refine ⟨g1, ?_⟩
  have h := hrun
  have hd := drainOverprocessed_spec n g hpend
  simp only [Audio_Process, acquired, my_assert, hd, if_true, Bool.false_eq_true, if_false]
    at h
  split at h
  · cases h
  · rename_i c2 hw
    have h' := Except.ok.inj h
    obtain ⟨rest, hrest⟩ := whileRemaining_outBuffer osc _ _ _ _ _ hw
    refine ⟨rest, hrun, ?_⟩
    obtain ⟨c3, hrun3, _, _, _, _, hd3, _⟩ :=
      whileRemaining_spec osc n (processBufferOffset g / sizeofFloat)
        (n - min g.ProcessBufferNumOverprocessedFrames n)
        { g := { g with ProcessBufferNumOverprocessedFrames :=
              g.ProcessBufferNumOverprocessedFrames - min g.ProcessBufferNumOverprocessedFrames n }
          remainingBlockFrames := n - min g.ProcessBufferNumOverprocessedFrames n
          outBuffer := (List.range
            (g.NumChannels * min g.ProcessBufferNumOverprocessedFrames n)).map
              g.ProcessBufferMem }
        hB (Nat.le_refl _) (Nat.sub_le _ _) (by
          simp only []
          rcases Nat.le_total g.ProcessBufferNumOverprocessedFrames n with h1 | h1
          · right; rw [Nat.min_eq_left h1]; omega
          · left; rw [Nat.min_eq_right h1]; omega)
    have hw' : whileRemaining osc n (processBufferOffset g / sizeofFloat)
        (n - min g.ProcessBufferNumOverprocessedFrames n)
        { g := { g with ProcessBufferNumOverprocessedFrames :=
              g.ProcessBufferNumOverprocessedFrames - min g.ProcessBufferNumOverprocessedFrames n }
          remainingBlockFrames := n - min g.ProcessBufferNumOverprocessedFrames n
          outBuffer := (List.range
            (g.NumChannels * min g.ProcessBufferNumOverprocessedFrames n)).map
              g.ProcessBufferMem } = .ok c2 := hw
    rw [hrun3] at hw'
    have hc : c3 = c2 := Except.ok.inj hw'
    rw [hc] at hd3
    rw [← h']
    simp only [hd3, hrest, List.append_assoc]

/-- The defect behind C1 in general: when a request `n1` is smaller than the
count pending, the next request starts again at cell 0 of `ProcessBuffer`, so
the device receives the first pending frames a second time, whatever the
state. -/
theorem partial_drain_redelivers (osc : Oscillator φ α) (n1 n2 : Nat) (g : Audio φ α)
    (hB : 0 < g.BlockSize) (h1 : 0 < n1) (h1K : n1 < g.ProcessBufferNumOverprocessedFrames)
    (h2 : 0 < n2) :
    ∃ g2 rest, runCycles osc (requests [n1, n2]) g = .ok g2 ∧
      g2.delivered = g.delivered
        ++ (List.range (g.NumChannels * n1)).map g.ProcessBufferMem
        ++ (List.range (g.NumChannels
              * min (g.ProcessBufferNumOverprocessedFrames - n1) n2)).map g.ProcessBufferMem
        ++ rest := by
  have hfirst := Audio_Process_drain_only osc acquired rfl rfl n1 g (Nat.le_of_lt h1K)
    (Or.inr h1)
  obtain ⟨g2, rest, hsecond, hdel⟩ := Audio_Process_starts_at_cell_zero osc n2
    { g with
      ProcessBufferNumOverprocessedFrames := g.ProcessBufferNumOverprocessedFrames - n1
      delivered := g.delivered ++ (List.range (g.NumChannels * n1)).map g.ProcessBufferMem
      releasedFrames := g.releasedFrames ++ [n1] } hB (Or.inr h2)
  refine ⟨g2, rest, ?_, hdel⟩
  simp only [requests, List.map_cons, List.map_nil, runCycles, hfirst, hsecond]

/-- C1, the code at the failing input: in a session with two channels,
blocks of 4 frames and a device buffer of 4 frames, the requests 1, 1, 1 are
served from one generator block; the first leaves 3 frames pending, the second
drains one of them and leaves the other two where they are, and the third
copies from the start of `ProcessBuffer` again: the device receives frame 1
twice and not frame 2, where the first three frames of the generator stream
are the frames 0, 1, 2.  The same in the session of `main` on a device buffer
of 1032 frames: the priming cycle leaves 504 frames pending, a request of 480
frames delivers the first 480 of them, and the next request starts with the
first 24 of the same cells again. -/
theorem partial_drain_repeats_frames :
    Audio_Start (startEnv 4) (configured 2 4) = .ok (started 2 4 4) ∧
    countersOf (runCycles counterOsc (requests [1]) (started 2 4 4)) = some (3, 1) ∧
    countersOf (runCycles counterOsc (requests [1, 1]) (started 2 4 4)) = some (2, 1) ∧
    countersOf (runCycles counterOsc (requests [1, 1, 1]) (started 2 4 4)) = some (1, 1) ∧
    deliveredBy (runCycles counterOsc (requests [1, 1, 1]) (started 2 4 4))
      = some [0, 0, 1, 1, 1, 1] ∧
    (generatorStream counterOsc 8 1 (started 2 4 4)).take (2 * (1 + 1 + 1))
      = [0, 0, 1, 1, 2, 2] ∧
    countersOf (Audio_Process counterOsc acquired 1032 (started 2 512 1032)) = some (504, 3) ∧
    ∃ g2 rest, runCycles counterOsc (requests [480, 480]) primed = .ok g2 ∧
      g2.delivered = primed.delivered
        ++ (List.range (2 * 480)).map primed.ProcessBufferMem
        ++ (List.range (2 * 24)).map primed.ProcessBufferMem
        ++ rest := by
  refine ⟨rfl, by decide, by decide, by decide, by decide, by decide, by decide, ?_⟩
  exact partial_drain_redelivers counterOsc 480 480 primed (by decide) (by decide) (by decide)
    (by decide)

end WasapiSine
